import Mathlib

/-!
Verification of the Google-Drive sync plugin (src/main.ts).

The development shallowly embeds the synchronization engine: paths are
strings, JS objects used as string maps are association lists, the remote
store (Google Drive) is an explicit state of created folders plus a
fresh-id counter, and every remote call is recorded in a ghost trace so
that call counts can be stated.  Remote-call failures are injected by an
oracle `fail : Nat → Bool` deciding, per call index within a pass, whether
that call throws; `authFail` models a token-refresh failure.
-/

namespace GDriveSync

/-! ### Path model (Node `path` on a posix platform, for the shapes the
plugin produces: no `.`/`..` segments, no trailing slashes). -/

/-- `path.join a b` for the argument shapes occurring in the plugin. -/
def pathJoin (a b : String) : String :=
  if a = "" then b else if a = "/" then "/" ++ b else a ++ "/" ++ b

/-- Split a character list at every `'/'` (JS `String.prototype.split('/')`),
accumulating the current segment in reverse. -/
def splitChars : List Char → List Char → List String
  | [], acc => [String.mk acc.reverse]
  | c :: cs, acc =>
    if c = '/' then String.mk acc.reverse :: splitChars cs []
    else splitChars cs (c :: acc)

/-- JS `p.split('/')` (`path.sep` is `'/'`). -/
def jsSplit (p : String) : List String :=
  splitChars p.data []

/-- `folderPath.split(path.sep).filter(part => part.length > 0)` (main.ts:220). -/
def splitParts (p : String) : List String :=
  (jsSplit p).filter (fun s => s ≠ "")

/-- Join segments with `'/'` (inverse of `jsSplit` on nonempty segments). -/
def joinSegs : List String → String
  | [] => ""
  | [s] => s
  | s :: rest => s ++ "/" ++ joinSegs rest

/-- `path.dirname` for the plugin's inputs (no trailing slashes): everything
before the last separator, `"/"` for a root-level entry, `"."` when there
is no separator. -/
def dirname (p : String) : String :=
  match jsSplit p with
  | [] => "."
  | [_] => "."
  | parts =>
    match parts.dropLast with
    | [""] => "/"
    | ps => joinSegs ps

/-- `path.basename` for the plugin's inputs: the part after the last
separator. -/
def basename (p : String) : String :=
  (jsSplit p).getLastD p

/-! ### JS objects used as maps (`{ [path: string]: string }`). -/

/-- A JS object with string keys and string values, as an assoc list in
insertion order. -/
abbrev JMap := List (String × String)

/-- `obj[k]`, collapsed to `""` when the key is absent (both `undefined`
and `""` are falsy, and the plugin reads a value only under a truthiness
guard, so the collapse is observation-equivalent). -/
def jsGet (m : JMap) (k : String) : String :=
  (((m.find? (fun e => e.1 = k)).map Prod.snd)).getD ""

/-- Key presence (`k in obj`). -/
def hasKey (m : JMap) (k : String) : Bool :=
  m.any (fun e => e.1 = k)

/-- `obj[k] = v`: overwrite in place, or append a new key. -/
def jsSet (m : JMap) (k v : String) : JMap :=
  if m.any (fun e => e.1 = k) then
    m.map (fun e => if e.1 = k then (k, v) else e)
  else m ++ [(k, v)]

/-! ### Remote store (Google Drive) -/

/-- A folder object in the remote store.  `parent := ""` means top level
(no `parents` given at creation). -/
structure DFolder where
  id : String
  parent : String
  name : String
deriving DecidableEq

/-- Remote-store state: folders in creation order plus a fresh-id counter.
File objects carry no state the engine reads back, so only their minted
ids matter (`nextId`). -/
structure Remote where
  folders : List DFolder
  nextId : Nat
deriving DecidableEq

/-- One remote call, as recorded in the ghost trace. -/
inductive RCall where
  | listQ (parent : Option String) (name : String)
  | createFolderC (parent name : String)
  | createFileC (parent name mimeType content : String)
  | updateFileC (fileId name mimeType content : String)
deriving DecidableEq

/-- Engine state: the plugin's fields (`obsidianFolderId`,
`drivefolderIds`, `fileIds`, `settings.lastSyncTimestamp`,
`settings.googleDriveRefreshToken`), the remote store, and the ghost
call trace. -/
structure St where
  obsidianFolderId : Option String
  drivefolderIds : JMap
  fileIds : JMap
  lastSyncTimestamp : Option Nat
  googleDriveRefreshToken : String
  remote : Remote
  trace : List RCall
deriving DecidableEq

/-- Fresh remote id. -/
def mintId (r : Remote) : String :=
  "fid" ++ toString r.nextId

/-- Does a folder match the list query's name filter and (when given)
parent filter? -/
def folderMatches (parent : Option String) (name : String) (f : DFolder) : Bool :=
  (match parent with | some p => f.parent = p | none => true) && f.name = name

/-- `drive.files.list` over a folder list: ids of the matching folders in
store order. -/
def remoteListF (fs : List DFolder) (parent : Option String) (name : String) : List String :=
  (fs.filter (folderMatches parent name)).map DFolder.id

/-- `drive.files.list` result: ids of the non-trashed folders matching the
name filter and (when given) the parent filter, in store order. -/
def remoteList (r : Remote) (parent : Option String) (name : String) : List String :=
  remoteListF r.folders parent name

/-- Issue a list query.  The call is recorded; if the oracle fails it, the
call throws with no remote effect. -/
def issueList (fail : Nat → Bool) (parent : Option String) (name : String) (st : St) :
    Except Unit (List String) × St :=
  let k := st.trace.length
  let st := { st with trace := st.trace ++ [RCall.listQ parent name] }
  if fail k then (.error (), st) else (.ok (remoteList st.remote parent name), st)

/-- Issue a create-folder call (`drive.files.create` with folder MIME). -/
def issueCreateFolder (fail : Nat → Bool) (parent name : String) (st : St) :
    Except Unit String × St :=
  let k := st.trace.length
  let st := { st with trace := st.trace ++ [RCall.createFolderC parent name] }
  if fail k then (.error (), st)
  else
    let i := mintId st.remote
    (.ok i, { st with remote :=
      { folders := st.remote.folders ++ [⟨i, parent, name⟩], nextId := st.remote.nextId + 1 } })

/-- Issue a create-file call (`drive.files.create` with media). -/
def issueCreateFile (fail : Nat → Bool) (parent name mimeType content : String) (st : St) :
    Except Unit String × St :=
  let k := st.trace.length
  let st := { st with trace := st.trace ++ [RCall.createFileC parent name mimeType content] }
  if fail k then (.error (), st)
  else
    let i := mintId st.remote
    (.ok i, { st with remote := { st.remote with nextId := st.remote.nextId + 1 } })

/-- Issue an update-file call (`drive.files.update`); returns the same id. -/
def issueUpdateFile (fail : Nat → Bool) (fileId name mimeType content : String) (st : St) :
    Except Unit String × St :=
  let k := st.trace.length
  let st := { st with trace := st.trace ++ [RCall.updateFileC fileId name mimeType content] }
  if fail k then (.error (), st) else (.ok fileId, st)

/-! ### The engine (main.ts:136-343) -/

/-- JS `String.prototype.toLowerCase`, character by character (the
plugin's extensions are ASCII). -/
def jsToLower (s : String) : String :=
  String.mk (s.data.map Char.toLower)

/-- `getMimeType` (main.ts:327-343). -/
def getMimeType (extension : String) : String :=
  let e := jsToLower extension
  if e = "md" then "text/markdown"
  else if e = "png" then "image/png"
  else if e = "jpg" ∨ e = "jpeg" then "image/jpeg"
  else if e = "gif" then "image/gif"
  else if e = "json" then "application/json"
  else "application/octet-stream"

/-- The skip condition of `uploadObsidianFile` (main.ts:267):
`lastSyncTimestamp !== null && file.stat.mtime <= lastSyncTimestamp`. -/
def skipCheck (lastSync : Option Nat) (mtime : Nat) : Bool :=
  match lastSync with
  | some t => mtime ≤ t
  | none => false

/-- The Change Detector of the spec: upload iff not skipped. -/
def shouldUpload (lastSync : Option Nat) (mtime : Nat) : Bool :=
  !(skipCheck lastSync mtime)

/-- `ensureObsidianFolder` (main.ts:166-195): find the root folder by a
name-only query, create it at top level if absent, record it under `"/"`. -/
def ensureObsidianFolder (fail : Nat → Bool) (st : St) : Except Unit Unit × St :=
  match issueList fail none "Obsidian Vault" st with
  | (.error e, st) => (.error e, st)
  | (.ok ids, st) =>
    match ids with
    | i :: _ =>
      let st := { st with obsidianFolderId := some i }
      (.ok (), { st with drivefolderIds := jsSet st.drivefolderIds "/" i })
    | [] =>
      match issueCreateFolder fail "" "Obsidian Vault" st with
      | (.error e, st) => (.error e, st)
      | (.ok i, st) =>
        let st := { st with obsidianFolderId := some i }
        (.ok (), { st with drivefolderIds := jsSet st.drivefolderIds "/" i })

/-- The loop body of `ensureDriveFolder` (main.ts:224-255), over the
remaining segments, with the running `currentPath` and `parentId`. -/
def ensureDriveFolderLoop (fail : Nat → Bool) :
    List String → String → String → St → Except Unit String × St
  | [], _, parentId, st => (.ok parentId, st)
  | part :: rest, currentPath, parentId, st =>
    let cp := pathJoin currentPath part
    let cached := jsGet st.drivefolderIds cp
    if cached ≠ "" then
      ensureDriveFolderLoop fail rest cp cached st
    else
      match issueList fail (some parentId) part st with
      | (.error e, st) => (.error e, st)
      | (.ok ids, st) =>
        match ids with
        | i :: _ =>
          let st := { st with drivefolderIds := jsSet st.drivefolderIds cp i }
          ensureDriveFolderLoop fail rest cp i st
        | [] =>
          match issueCreateFolder fail parentId part st with
          | (.error e, st) => (.error e, st)
          | (.ok i, st) =>
            let st := { st with drivefolderIds := jsSet st.drivefolderIds cp i }
            ensureDriveFolderLoop fail rest cp i st

/-- `ensureDriveFolder` (main.ts:218-258).  `parentId` starts as
`obsidianFolderId` (interpolated as `"null"` when unset, as the JS query
string would). -/
def ensureDriveFolder (fail : Nat → Bool) (folderPath : String) (st : St) :
    Except Unit String × St :=
  ensureDriveFolderLoop fail (splitParts folderPath) ""
    (match st.obsidianFolderId with | some i => i | none => "null") st

/-- `uploadFile` (main.ts:286-324).  Folder resolution is outside the
`try`, so its failure propagates; a create/update failure is caught and
yields `none` ("null"). -/
def uploadFile (fail : Nat → Bool) (filePath content mimeType : String) (st : St) :
    Except Unit (Option String) × St :=
  let parentPath := dirname filePath
  let fileName := basename filePath
  match ensureDriveFolder fail parentPath st with
  | (.error e, st) => (.error e, st)
  | (.ok parentId, st) =>
    let cached := jsGet st.fileIds filePath
    if cached ≠ "" then
      match issueUpdateFile fail cached fileName mimeType content st with
      | (.ok i, st) => (.ok (some i), st)
      | (.error _, st) => (.ok none, st)
    else
      match issueCreateFile fail parentId fileName mimeType content st with
      | (.ok i, st) => (.ok (some i), st)
      | (.error _, st) => (.ok none, st)

/-- `uploadObsidianFile` (main.ts:261-283).  The text/binary read-mode
branch (main.ts:272-277) does not change the content value in this model.
The `fileIds` entry is written only under the truthiness guard
`if (fileId)`. -/
def uploadObsidianFile (fail : Nat → Bool) (name ext : String) (mtime : Nat)
    (content : String) (currentPath : String) (st : St) : Except Unit Unit × St :=
  let fileName := name
  let mimeType := getMimeType ext
  let filePath := pathJoin currentPath fileName
  if skipCheck st.lastSyncTimestamp mtime then
    (.ok (), st)
  else
    match uploadFile fail filePath content mimeType st with
    | (.error e, st) => (.error e, st)
    | (.ok fileId, st) =>
      match fileId with
      | some i =>
        if i ≠ "" then (.ok (), { st with fileIds := jsSet st.fileIds filePath i })
        else (.ok (), st)
      | none => (.ok (), st)

/-- A node of the local vault tree (`TFile` / `TFolder`). -/
inductive VNode where
  | vfile (name ext : String) (mtime : Nat) (content : String)
  | vfolder (name : String) (children : List VNode)

mutual
/-- `uploadFolderContents` (main.ts:205-215): the `for` loop over
`folder.children`, one item at a time, in tree order. -/
def uploadFolderContents (fail : Nat → Bool) :
    List VNode → String → St → Except Unit Unit × St
  | [], _, st => (.ok (), st)
  | item :: rest, currentPath, st =>
    match uploadFolderItem fail item currentPath st with
    | (.error er, st) => (.error er, st)
    | (.ok _, st) => uploadFolderContents fail rest currentPath st

/-- The body of the `for` loop of `uploadFolderContents`: a file is
uploaded in place; a folder is resolved and then recursed into. -/
def uploadFolderItem (fail : Nat → Bool) :
    VNode → String → St → Except Unit Unit × St
  | .vfile n e m c, currentPath, st =>
    uploadObsidianFile fail n e m c currentPath st
  | .vfolder n ch, currentPath, st =>
    let newPath := pathJoin currentPath n
    match ensureDriveFolder fail newPath st with
    | (.error er, st) => (.error er, st)
    | (.ok _, st) => uploadFolderContents fail ch newPath st
end

/-- `uploadVaultContents` (main.ts:198-202): start at the vault root with
path `"/"`. -/
def uploadVaultContents (fail : Nat → Bool) (vault : List VNode) (st : St) :
    Except Unit Unit × St :=
  uploadFolderContents fail vault "/" st

/-- `syncWithGoogleDrive` (main.ts:137-163).  `authFail` models a thrown
`getAccessToken` refresh (caught by the pass-level handler).  Returns
whether the pass ended in "Sync complete!".  Persistence
(`saveSettings`/`saveData`) is the in-memory state itself.  The ghost
trace is reset with the folder cache so that it lists this pass's calls. -/
def syncWithGoogleDrive (fail : Nat → Bool) (authFail : Bool) (vault : List VNode)
    (now : Nat) (st : St) : Bool × St :=
  if st.googleDriveRefreshToken = "" then (false, st)
  else if authFail then (false, st)
  else
    let st := { st with drivefolderIds := [], trace := [] }
    match ensureObsidianFolder fail st with
    | (.error _, st) => (false, st)
    | (.ok _, st) =>
      match uploadVaultContents fail vault st with
      | (.error _, st) => (false, st)
      | (.ok _, st) =>
        (true, { st with lastSyncTimestamp := some now })

/-! ### Plugin lifecycle (main.ts:30-75) -/

/-- Parameters of one invocation of the sync command. -/
structure Pass where
  fail : Nat → Bool
  authFail : Bool
  vault : List VNode
  now : Nat

/-- `onload` (main.ts:30-63): settings and the durable `fileIds` are
loaded from storage; the volatile fields start empty. -/
def pluginLoad (loadedFileIds : JMap) (loadedLastSync : Option Nat)
    (refreshToken : String) (r : Remote) : St :=
  { obsidianFolderId := none
    drivefolderIds := []
    fileIds := loadedFileIds
    lastSyncTimestamp := loadedLastSync
    googleDriveRefreshToken := refreshToken
    remote := r
    trace := [] }

/-- `onunload` (main.ts:65-67): saves `fileIds`; the in-memory state is
unchanged. -/
def pluginUnload (st : St) : St := st

/-- Run a sequence of sync-command invocations. -/
def runPasses : List Pass → St → St
  | [], st => st
  | p :: ps, st => runPasses ps (syncWithGoogleDrive p.fail p.authFail p.vault p.now st).2

/-! ### Auxiliary definitions for the statements -/

/-- `obj[k]` as an optional value (`undefined` = `none`), distinguishing
an absent key from an empty-string value. -/
def jsGetOpt (m : JMap) (k : String) : Option String :=
  (m.find? (fun e => e.1 = k)).map Prod.snd

/-- The traversal path of a segment list: `"/"` extended by `path.join`
per segment, as `uploadFolderContents` builds `currentPath`. -/
def mkPath (qs : List String) : String :=
  qs.foldl pathJoin "/"

/-- A valid path segment: nonempty, without a separator (local file and
folder names). -/
def validSeg (s : String) : Bool :=
  s ≠ "" && !s.data.contains '/'

mutual
/-- All names in the vault forest are valid path segments. -/
def wfNodes : List VNode → Bool
  | [] => true
  | n :: rest => wfNode n && wfNodes rest
def wfNode : VNode → Bool
  | .vfile n _ _ _ => validSeg n
  | .vfolder n ch => validSeg n && wfNodes ch
end

mutual
/-- Every file in the forest has modification time `≤ t`. -/
def mtimesLe (t : Nat) : List VNode → Bool
  | [] => true
  | n :: rest => mtimeLe t n && mtimesLe t rest
def mtimeLe (t : Nat) : VNode → Bool
  | .vfile _ _ m _ => m ≤ t
  | .vfolder _ ch => mtimesLe t ch
end

/-- Every folder id in the remote store is nonempty (remote object ids
are opaque nonempty strings; minted ids are `"fid…"`). -/
def goodIds (r : Remote) : Bool :=
  r.folders.all (fun f => f.id != "")

/-- The cumulative `currentPath` values the `ensureDriveFolder` loop
visits (its cache keys). -/
def cumPaths : String → List String → List String
  | _, [] => []
  | cp, p :: rest => pathJoin cp p :: cumPaths (pathJoin cp p) rest

/-- Number of visited cache keys that miss (empty or absent) in the
folder-id cache: the segments for which `ensureDriveFolder` must go to
the remote store. -/
def uncached (m : JMap) (cp : String) (segs : List String) : Nat :=
  ((cumPaths cp segs).filter (fun p => decide (jsGet m p = ""))).length

/-- Number of list-children queries in a trace. -/
def countListQ (tr : List RCall) : Nat :=
  tr.countP (fun c => match c with | .listQ _ _ => true | _ => false)

/-- Number of create-folder calls in a trace. -/
def countCreateFolderC (tr : List RCall) : Nat :=
  tr.countP (fun c => match c with | .createFolderC _ _ => true | _ => false)

/-- Number of create-file calls in a trace. -/
def countCreateFileC (tr : List RCall) : Nat :=
  tr.countP (fun c => match c with | .createFileC _ _ _ _ => true | _ => false)

/-- Number of update-file calls in a trace. -/
def countUpdateFileC (tr : List RCall) : Nat :=
  tr.countP (fun c => match c with | .updateFileC _ _ _ _ => true | _ => false)

/-- A trace consisting of list queries only. -/
def onlyListQ (tr : List RCall) : Bool :=
  tr.all (fun c => match c with | .listQ _ _ => true | _ => false)

/-- The failure oracle of a run without remote failures. -/
def noFail : Nat → Bool := fun _ => false

/-- How the state evolves across the engine's folder/file operations:
settings fields, the root id and the durable `fileIds` are untouched,
remote folders are only appended, nonempty folder-cache entries are never
changed, and the trace is only appended. -/
structure Ev (s t : St) : Prop where
  lastSync : t.lastSyncTimestamp = s.lastSyncTimestamp
  token : t.googleDriveRefreshToken = s.googleDriveRefreshToken
  obsId : t.obsidianFolderId = s.obsidianFolderId
  fileIds : t.fileIds = s.fileIds
  folders : ∃ app, t.remote.folders = s.remote.folders ++ app
  cacheMono : ∀ q, jsGet s.drivefolderIds q ≠ "" → jsGet t.drivefolderIds q = jsGet s.drivefolderIds q
  traceExt : ∃ tex, t.trace = s.trace ++ tex

/-- Like `Ev`, but `fileIds` may gain or overwrite entries, always with a
nonempty id, and never loses a key (the file-uploading operations). -/
structure EvU (s t : St) : Prop where
  lastSync : t.lastSyncTimestamp = s.lastSyncTimestamp
  token : t.googleDriveRefreshToken = s.googleDriveRefreshToken
  obsId : t.obsidianFolderId = s.obsidianFolderId
  fileKeys : ∀ k, hasKey s.fileIds k = true → hasKey t.fileIds k = true
  fileVals : ∀ k, jsGetOpt t.fileIds k = jsGetOpt s.fileIds k ∨
    ∃ i, jsGetOpt t.fileIds k = some i ∧ i ≠ ""
  folders : ∃ app, t.remote.folders = s.remote.folders ++ app
  cacheMono : ∀ q, jsGet s.drivefolderIds q ≠ "" → jsGet t.drivefolderIds q = jsGet s.drivefolderIds q
  traceExt : ∃ tex, t.trace = s.trace ++ tex

/-! ### Basic lemmas -/

theorem char_toNat_ofNat_valid (n : Nat) (h : n.isValidChar) :
    (Char.ofNat n).toNat = n := by
  simp only [Char.ofNat, dif_pos h, Char.toNat, Char.ofNatAux]
  rfl

/-- `Char.toLower` is idempotent. -/
theorem char_toLower_idem (c : Char) : c.toLower.toLower = c.toLower := by
  simp only [Char.toLower]
  by_cases h : c.toNat ≥ 65 ∧ c.toNat ≤ 90
  · rw [if_pos h]
    have hv : (c.toNat + 32).isValidChar := Or.inl (by omega)
    rw [char_toNat_ofNat_valid _ hv, if_neg (by omega)]
  · rw [if_neg h, if_neg h]

/-- Lower-casing is idempotent. -/
theorem jsToLower_idem (s : String) : jsToLower (jsToLower s) = jsToLower s := by
  simp [jsToLower, List.map_map, Function.comp_def, char_toLower_idem]

/-! ### JMap lemmas -/

theorem jsGet_eq_getD (m : JMap) (k : String) : jsGet m k = (jsGetOpt m k).getD "" := rfl

theorem hasKey_eq_isSome (m : JMap) (q : String) :
    hasKey m q = (jsGetOpt m q).isSome := by
  induction m with
  | nil => rfl
  | cons e rest ih =>
    by_cases h : e.1 = q
    · simp [hasKey, jsGetOpt, List.find?, h]
    · simp only [hasKey, jsGetOpt, List.find?, h, List.any_cons, decide_eq_true_eq,
        if_neg, Bool.false_or]
      simpa [hasKey, jsGetOpt] using ih

theorem jsGetOpt_nil (q : String) : jsGetOpt [] q = none := rfl

theorem jsGetOpt_cons (e : String × String) (rest : JMap) (q : String) :
    jsGetOpt (e :: rest) q = if e.1 = q then some e.2 else jsGetOpt rest q := by
  by_cases h : e.1 = q
  · rw [jsGetOpt, List.find?_cons_of_pos _ (by simpa using h), if_pos h]
    rfl
  · rw [jsGetOpt, List.find?_cons_of_neg _ (by simpa using h), if_neg h]
    rfl

theorem hasKey_cons (e : String × String) (rest : JMap) (q : String) :
    hasKey (e :: rest) q = (decide (e.1 = q) || hasKey rest q) := by
  simp [hasKey]

theorem jsGetOpt_map_overwrite (m : JMap) (k v q : String) :
    jsGetOpt (m.map (fun e => if e.1 = k then (k, v) else e)) q =
      if q = k then (if hasKey m k then some v else none) else jsGetOpt m q := by
  induction m with
  | nil => by_cases h : q = k <;> simp [jsGetOpt, hasKey, h]
  | cons e rest ih =>
    by_cases hek : e.1 = k <;> by_cases hqk : q = k
    · subst hqk
      simp [jsGetOpt_cons, hasKey_cons, hek]
    · rw [List.map_cons, if_pos hek, jsGetOpt_cons, jsGetOpt_cons, ih,
        if_neg hqk, if_neg hqk, if_neg (fun hh : k = q => hqk hh.symm),
        if_neg (fun hh : e.1 = q => hqk (hek ▸ hh).symm)]
    · subst hqk
      simp [jsGetOpt_cons, hasKey_cons, hek, ih]
    · rw [List.map_cons, if_neg hek, jsGetOpt_cons, jsGetOpt_cons, ih,
        if_neg hqk, if_neg hqk]

theorem jsGetOpt_append_new (m : JMap) (k v q : String) (h : hasKey m k = false) :
    jsGetOpt (m ++ [(k, v)]) q = if q = k then some v else jsGetOpt m q := by
  rw [jsGetOpt, List.find?_append]
  by_cases hqk : q = k
  · subst hqk
    have hnone : m.find? (fun e => e.1 = q) = none := by
      rw [List.find?_eq_none]
      intro x hx
      simp only [hasKey, List.any_eq_false] at h
      simpa using h x hx
    simp [hnone]
  · rw [if_neg hqk]
    have h2 : List.find? (fun e => e.1 = q) [(k, v)] = none := by
      simp [List.find?, Ne.symm hqk]
    rw [h2, Option.or_none]
    rfl

theorem jsGetOpt_jsSet (m : JMap) (k v q : String) :
    jsGetOpt (jsSet m k v) q = if q = k then some v else jsGetOpt m q := by
  unfold jsSet
  by_cases h : m.any (fun e => e.1 = k)
  · rw [if_pos h, jsGetOpt_map_overwrite]
    have : hasKey m k = true := by simpa [hasKey] using h
    simp [this]
  · rw [if_neg h, jsGetOpt_append_new]
    show hasKey m k = false
    unfold hasKey
    exact Bool.not_eq_true _ ▸ (by exact_mod_cast h)

theorem jsGet_jsSet (m : JMap) (k v q : String) :
    jsGet (jsSet m k v) q = if q = k then v else jsGet m q := by
  rw [jsGet_eq_getD, jsGetOpt_jsSet]
  by_cases h : q = k <;> simp [h, jsGet_eq_getD]

theorem hasKey_jsSet (m : JMap) (k v q : String) :
    hasKey (jsSet m k v) q = (decide (q = k) || hasKey m q) := by
  rw [hasKey_eq_isSome, jsGetOpt_jsSet, hasKey_eq_isSome]
  by_cases h : q = k <;> simp [h]

/-! ### Evolution lemmas -/

theorem Ev.ofSelf (s : St) : Ev s s :=
  ⟨rfl, rfl, rfl, rfl, ⟨[], by simp⟩, fun _ _ => rfl, ⟨[], by simp⟩⟩

theorem Ev.comp {a b c : St} (h1 : Ev a b) (h2 : Ev b c) : Ev a c := by
  obtain ⟨app1, hf1⟩ := h1.folders
  obtain ⟨app2, hf2⟩ := h2.folders
  obtain ⟨t1, ht1⟩ := h1.traceExt
  obtain ⟨t2, ht2⟩ := h2.traceExt
  refine ⟨h2.lastSync.trans h1.lastSync, h2.token.trans h1.token, h2.obsId.trans h1.obsId,
    h2.fileIds.trans h1.fileIds, ⟨app1 ++ app2, by rw [hf2, hf1, List.append_assoc]⟩,
    fun q hq => ?_, ⟨t1 ++ t2, by rw [ht2, ht1, List.append_assoc]⟩⟩
  rw [h2.cacheMono q (by rw [h1.cacheMono q hq]; exact hq), h1.cacheMono q hq]

theorem EvU.ofEv {s t : St} (h : Ev s t) : EvU s t :=
  ⟨h.lastSync, h.token, h.obsId, fun k hk => h.fileIds ▸ hk, fun k => Or.inl (by rw [h.fileIds]),
    h.folders, h.cacheMono, h.traceExt⟩

theorem EvU.compU {a b c : St} (h1 : EvU a b) (h2 : EvU b c) : EvU a c := by
  obtain ⟨app1, hf1⟩ := h1.folders
  obtain ⟨app2, hf2⟩ := h2.folders
  obtain ⟨t1, ht1⟩ := h1.traceExt
  obtain ⟨t2, ht2⟩ := h2.traceExt
  refine ⟨h2.lastSync.trans h1.lastSync, h2.token.trans h1.token, h2.obsId.trans h1.obsId,
    fun k hk => h2.fileKeys k (h1.fileKeys k hk), fun k => ?_,
    ⟨app1 ++ app2, by rw [hf2, hf1, List.append_assoc]⟩,
    fun q hq => by rw [h2.cacheMono q (by rw [h1.cacheMono q hq]; exact hq), h1.cacheMono q hq],
    ⟨t1 ++ t2, by rw [ht2, ht1, List.append_assoc]⟩⟩
  rcases h2.fileVals k with h | ⟨i, hi, hne⟩
  · rcases h1.fileVals k with h' | ⟨i, hi, hne⟩
    · exact Or.inl (h.trans h')
    · exact Or.inr ⟨i, h ▸ hi, hne⟩
  · exact Or.inr ⟨i, hi, hne⟩

theorem ev_issueList (fail : Nat → Bool) (p : Option String) (n : String) (st : St) :
    Ev st (issueList fail p n st).2 := by
  unfold issueList
  dsimp only
  split <;>
    exact ⟨rfl, rfl, rfl, rfl, ⟨[], by simp⟩, fun _ _ => rfl, ⟨_, rfl⟩⟩

theorem ev_issueCreateFolder (fail : Nat → Bool) (p n : String) (st : St) :
    Ev st (issueCreateFolder fail p n st).2 := by
  unfold issueCreateFolder
  dsimp only
  split
  · exact ⟨rfl, rfl, rfl, rfl, ⟨[], by simp⟩, fun _ _ => rfl, ⟨_, rfl⟩⟩
  · exact ⟨rfl, rfl, rfl, rfl, ⟨_, rfl⟩, fun _ _ => rfl, ⟨_, rfl⟩⟩

theorem ev_issueCreateFile (fail : Nat → Bool) (p n mt c : String) (st : St) :
    Ev st (issueCreateFile fail p n mt c st).2 := by
  unfold issueCreateFile
  dsimp only
  split <;>
    exact ⟨rfl, rfl, rfl, rfl, ⟨[], by simp⟩, fun _ _ => rfl, ⟨_, rfl⟩⟩

theorem ev_issueUpdateFile (fail : Nat → Bool) (i n mt c : String) (st : St) :
    Ev st (issueUpdateFile fail i n mt c st).2 := by
  unfold issueUpdateFile
  dsimp only
  split <;>
    exact ⟨rfl, rfl, rfl, rfl, ⟨[], by simp⟩, fun _ _ => rfl, ⟨_, rfl⟩⟩

/-- Writing a folder-cache entry at a currently empty key respects `Ev`. -/
theorem ev_writeCache {st : St} {k : String} (v : String)
    (h : jsGet st.drivefolderIds k = "") :
    Ev st { st with drivefolderIds := jsSet st.drivefolderIds k v } := by
  refine ⟨rfl, rfl, rfl, rfl, ⟨[], by simp⟩, fun q hq => ?_, ⟨[], by simp⟩⟩
  show jsGet (jsSet st.drivefolderIds k v) q = _
  rw [jsGet_jsSet]
  rcases eq_or_ne q k with hqk | hqk
  · exact absurd (hqk ▸ h) hq
  · rw [if_neg hqk]

theorem cache_issueList (fail : Nat → Bool) (p : Option String) (n : String) (st : St) :
    (issueList fail p n st).2.drivefolderIds = st.drivefolderIds := by
  unfold issueList; dsimp only; split <;> rfl

theorem cache_issueCreateFolder (fail : Nat → Bool) (p n : String) (st : St) :
    (issueCreateFolder fail p n st).2.drivefolderIds = st.drivefolderIds := by
  unfold issueCreateFolder; dsimp only; split <;> rfl

theorem ev_ensureDriveFolderLoop (fail : Nat → Bool) (segs : List String)
    (cp pid : String) (st : St) :
    Ev st (ensureDriveFolderLoop fail segs cp pid st).2 := by
  induction segs generalizing cp pid st with
  | nil => exact Ev.ofSelf st
  | cons part rest ih =>
    rw [ensureDriveFolderLoop]
    split
    · exact ih _ _ _
    · rename_i hcache
      have hcache0 : jsGet st.drivefolderIds (pathJoin cp part) = "" := by
        by_contra hne
        exact hcache hne
      rcases hL : issueList fail (some pid) part st with ⟨res, st2⟩
      have hev2 : Ev st st2 :=
        (show (issueList fail (some pid) part st).2 = st2 by rw [hL]) ▸ ev_issueList _ _ _ _
      have hc2 : st2.drivefolderIds = st.drivefolderIds :=
        (show (issueList fail (some pid) part st).2 = st2 by rw [hL]) ▸ cache_issueList _ _ _ _
      simp only [hL]
      rcases res with e | ids
      · exact hev2
      · rcases ids with _ | ⟨i, restIds⟩
        · rcases hC : issueCreateFolder fail pid part st2 with ⟨res2, st3⟩
          have hev3 : Ev st2 st3 :=
            (show (issueCreateFolder fail pid part st2).2 = st3 by rw [hC]) ▸
              ev_issueCreateFolder _ _ _ _
          have hc3 : st3.drivefolderIds = st2.drivefolderIds :=
            (show (issueCreateFolder fail pid part st2).2 = st3 by rw [hC]) ▸
              cache_issueCreateFolder _ _ _ _
          simp only [hC]
          rcases res2 with e | j
          · exact hev2.comp hev3
          · have hempty : jsGet st3.drivefolderIds (pathJoin cp part) = "" := by
              rw [hc3, hc2]; exact hcache0
            exact ((hev2.comp hev3).comp (ev_writeCache j hempty)).comp (ih _ _ _)
        · have hempty : jsGet st2.drivefolderIds (pathJoin cp part) = "" := by
            rw [hc2]; exact hcache0
          exact (hev2.comp (ev_writeCache i hempty)).comp (ih _ _ _)

theorem ev_ensureDriveFolder (fail : Nat → Bool) (folderPath : String) (st : St) :
    Ev st (ensureDriveFolder fail folderPath st).2 :=
  ev_ensureDriveFolderLoop _ _ _ _ _

theorem ev_uploadFile (fail : Nat → Bool) (fp c mt : String) (st : St) :
    Ev st (uploadFile fail fp c mt st).2 := by
  unfold uploadFile
  dsimp only
  rcases hE : ensureDriveFolder fail (dirname fp) st with ⟨res, st1⟩
  have hev1 : Ev st st1 :=
    (show (ensureDriveFolder fail (dirname fp) st).2 = st1 by rw [hE]) ▸
      ev_ensureDriveFolder _ _ _
  rcases res with e | pid
  · exact hev1
  · dsimp only
    split
    · rcases hU : issueUpdateFile fail (jsGet st1.fileIds fp) (basename fp) mt c st1
        with ⟨res2, st2⟩
      have hev2 : Ev st1 st2 :=
        (show (issueUpdateFile fail (jsGet st1.fileIds fp) (basename fp) mt c st1).2 = st2
          by rw [hU]) ▸ ev_issueUpdateFile _ _ _ _ _ _
      rcases res2 with e | i
      · exact hev1.comp hev2
      · exact hev1.comp hev2
    · rcases hC : issueCreateFile fail pid (basename fp) mt c st1 with ⟨res2, st2⟩
      have hev2 : Ev st1 st2 :=
        (show (issueCreateFile fail pid (basename fp) mt c st1).2 = st2 by rw [hC]) ▸
          ev_issueCreateFile _ _ _ _ _ _
      rcases res2 with e | i
      · exact hev1.comp hev2
      · exact hev1.comp hev2

theorem EvU.ofSelfU (s : St) : EvU s s := EvU.ofEv (Ev.ofSelf s)

/-- Recording a freshly returned nonempty file id respects `EvU`. -/
theorem evu_setFileId {i : String} (st : St) (fp : String) (hi : i ≠ "") :
    EvU st { st with fileIds := jsSet st.fileIds fp i } := by
  refine ⟨rfl, rfl, rfl, fun k hk => ?_, fun k => ?_, ⟨[], by simp⟩, fun _ _ => rfl, ⟨[], by simp⟩⟩
  · show hasKey (jsSet st.fileIds fp i) k = true
    rw [hasKey_jsSet]
    simp [hk]
  · show jsGetOpt (jsSet st.fileIds fp i) k = _ ∨ _
    rw [jsGetOpt_jsSet]
    rcases eq_or_ne k fp with hk | hk
    · exact Or.inr ⟨i, by rw [if_pos hk], hi⟩
    · exact Or.inl (by rw [if_neg hk])

theorem evu_uploadObsidianFile (fail : Nat → Bool) (n e : String) (m : Nat)
    (c cp : String) (st : St) :
    EvU st (uploadObsidianFile fail n e m c cp st).2 := by
  unfold uploadObsidianFile
  dsimp only
  split
  · exact EvU.ofSelfU st
  · rcases hU : uploadFile fail (pathJoin cp n) c (getMimeType e) st with ⟨res, st1⟩
    have hev1 : Ev st st1 :=
      (show (uploadFile fail (pathJoin cp n) c (getMimeType e) st).2 = st1 by rw [hU]) ▸
        ev_uploadFile _ _ _ _ _
    rcases res with er | fileId
    · exact EvU.ofEv hev1
    · rcases fileId with _ | i
      · exact EvU.ofEv hev1
      · dsimp only
        split
        · exact (EvU.ofEv hev1).compU (evu_setFileId st1 (pathJoin cp n) (by assumption))
        · exact EvU.ofEv hev1

theorem evu_uploadFolderContents (fail : Nat → Bool) (l : List VNode) (cp : String) (st : St) :
    EvU st (uploadFolderContents fail l cp st).2 := by
  induction l, cp, st using uploadFolderContents.induct fail
    (motive_2 := fun it cp st => EvU st (uploadFolderItem fail it cp st).2) with
  | case1 n e m c cp st =>
    simp only [uploadFolderItem]
    exact evu_uploadObsidianFile _ _ _ _ _ _ _
  | case2 n ch cp st np er st1 hE =>
    simp only [uploadFolderItem, hE]
    exact EvU.ofEv ((show (ensureDriveFolder fail np st).2 = st1 by rw [hE]) ▸
      ev_ensureDriveFolder _ _ _)
  | case3 n ch cp st np i st1 hE ih =>
    simp only [uploadFolderItem, hE]
    exact (EvU.ofEv ((show (ensureDriveFolder fail np st).2 = st1 by rw [hE]) ▸
      ev_ensureDriveFolder _ _ _)).compU ih
  | case4 cp st => exact EvU.ofSelfU st
  | case5 item rest cp st er st1 hI ih2 =>
    simp only [uploadFolderContents, hI]
    exact (show (uploadFolderItem fail item cp st).2 = st1 by rw [hI]) ▸ ih2
  | case6 item rest cp st a st1 hI ih2 ih1 =>
    simp only [uploadFolderContents, hI]
    exact ((show (uploadFolderItem fail item cp st).2 = st1 by rw [hI]) ▸ ih2).compU ih1

theorem evu_uploadFolderItem (fail : Nat → Bool) (it : VNode) (cp : String) (st : St) :
    EvU st (uploadFolderItem fail it cp st).2 := by
  rcases it with ⟨n, e, m, c⟩ | ⟨n, ch⟩
  · simp only [uploadFolderItem]
    exact evu_uploadObsidianFile _ _ _ _ _ _ _
  · simp only [uploadFolderItem]
    rcases hE : ensureDriveFolder fail (pathJoin cp n) st with ⟨res, st1⟩
    have hev1 : Ev st st1 :=
      (show (ensureDriveFolder fail (pathJoin cp n) st).2 = st1 by rw [hE]) ▸
        ev_ensureDriveFolder _ _ _
    rcases res with er | i
    · exact EvU.ofEv hev1
    · exact (EvU.ofEv hev1).compU (evu_uploadFolderContents _ _ _ _)

/-- Frame of `ensureObsidianFolder`: settings and `fileIds` untouched,
remote folders and trace only appended, and cache entries other than the
root key `"/"` unchanged. -/
theorem ensureObsidianFolder_frame (fail : Nat → Bool) (st : St) :
    (ensureObsidianFolder fail st).2.lastSyncTimestamp = st.lastSyncTimestamp ∧
    (ensureObsidianFolder fail st).2.googleDriveRefreshToken = st.googleDriveRefreshToken ∧
    (ensureObsidianFolder fail st).2.fileIds = st.fileIds ∧
    (∃ app, (ensureObsidianFolder fail st).2.remote.folders = st.remote.folders ++ app) ∧
    (∃ tex, (ensureObsidianFolder fail st).2.trace = st.trace ++ tex) ∧
    (∀ q, q ≠ "/" →
      jsGet (ensureObsidianFolder fail st).2.drivefolderIds q = jsGet st.drivefolderIds q) := by
  unfold ensureObsidianFolder
  rcases hL : issueList fail none "Obsidian Vault" st with ⟨res, st1⟩
  have hev1 : Ev st st1 :=
    (show (issueList fail none "Obsidian Vault" st).2 = st1 by rw [hL]) ▸ ev_issueList _ _ _ _
  have hc1 : st1.drivefolderIds = st.drivefolderIds :=
    (show (issueList fail none "Obsidian Vault" st).2 = st1 by rw [hL]) ▸ cache_issueList _ _ _ _
  simp only [hL]
  rcases res with e | ids
  · exact ⟨hev1.lastSync, hev1.token, hev1.fileIds, hev1.folders, hev1.traceExt,
      fun q _ => by rw [hc1]⟩
  · rcases ids with _ | ⟨i, restIds⟩
    · rcases hC : issueCreateFolder fail "" "Obsidian Vault" st1 with ⟨res2, st2⟩
      have hev2 : Ev st1 st2 :=
        (show (issueCreateFolder fail "" "Obsidian Vault" st1).2 = st2 by rw [hC]) ▸
          ev_issueCreateFolder _ _ _ _
      have hc2 : st2.drivefolderIds = st1.drivefolderIds :=
        (show (issueCreateFolder fail "" "Obsidian Vault" st1).2 = st2 by rw [hC]) ▸
          cache_issueCreateFolder _ _ _ _
      simp only [hC]
      rcases res2 with e | j
      · exact ⟨(hev1.comp hev2).lastSync, (hev1.comp hev2).token, (hev1.comp hev2).fileIds,
          (hev1.comp hev2).folders, (hev1.comp hev2).traceExt,
          fun q _ => by rw [hc2, hc1]⟩
      · refine ⟨(hev1.comp hev2).lastSync, (hev1.comp hev2).token, (hev1.comp hev2).fileIds,
          (hev1.comp hev2).folders, (hev1.comp hev2).traceExt, fun q hq => ?_⟩
        show jsGet (jsSet st2.drivefolderIds "/" j) q = _
        rw [jsGet_jsSet, if_neg hq, hc2, hc1]
    · refine ⟨hev1.lastSync, hev1.token, hev1.fileIds, hev1.folders, hev1.traceExt,
        fun q hq => ?_⟩
      show jsGet (jsSet st1.drivefolderIds "/" i) q = _
      rw [jsGet_jsSet, if_neg hq, hc1]

/-- C1: the change detector uploads a file unconditionally when
`lastSyncTimestamp` is null, and otherwise uploads iff the modification
time is strictly greater than the timestamp: with `lastSyncTimestamp = T`,
a file with `modifiedTime = T` is skipped and one with
`modifiedTime = T + 1` is uploaded. -/
theorem change_detector_policy (T m : Nat) :
    shouldUpload none m = true ∧
    (shouldUpload (some T) m = true ↔ T < m) ∧
    shouldUpload (some T) T = false ∧
    shouldUpload (some T) (T + 1) = true := by
  refine ⟨rfl, ?_, ?_, ?_⟩ <;> simp [shouldUpload, skipCheck]

/-- Witness: the change-detector policy at `T = 10`. -/
theorem change_detector_policy_witness :
    shouldUpload (some 10) 10 = false ∧ shouldUpload (some 10) 11 = true ∧
      shouldUpload none 0 = true :=
  ⟨(change_detector_policy 10 10).2.2.1, (change_detector_policy 10 11).2.2.2,
    (change_detector_policy 10 0).1⟩

/-! ### C2 — lastSyncTimestamp only on success -/

/-- C2: `lastSyncTimestamp` is set (to the pass's `now`) exactly when the
sync pass completes without a fatal error; a pass that ends in the
error handler — a token-refresh failure or any uncaught error from root
resolution or the traversal — leaves `lastSyncTimestamp` at its value
from before the pass. -/
theorem lastSync_only_on_success (fail : Nat → Bool) (authFail : Bool)
    (vault : List VNode) (now : Nat) (st : St) :
    ((syncWithGoogleDrive fail authFail vault now st).1 = false →
      (syncWithGoogleDrive fail authFail vault now st).2.lastSyncTimestamp =
        st.lastSyncTimestamp) ∧
    ((syncWithGoogleDrive fail authFail vault now st).1 = true →
      (syncWithGoogleDrive fail authFail vault now st).2.lastSyncTimestamp = some now) := by
  unfold syncWithGoogleDrive
  split
  · exact ⟨fun _ => rfl, fun h => by simp at h⟩
  · split
    · exact ⟨fun _ => rfl, fun h => by simp at h⟩
    · dsimp only
      rcases hO : ensureObsidianFolder fail
          { st with drivefolderIds := [], trace := [] } with ⟨res, st1⟩
      have hls1 : st1.lastSyncTimestamp = st.lastSyncTimestamp :=
        (show (ensureObsidianFolder fail { st with drivefolderIds := [], trace := [] }).2 = st1
          by rw [hO]) ▸ (ensureObsidianFolder_frame fail _).1
      rcases res with e | u
      · exact ⟨fun _ => hls1, fun h => by simp at h⟩
      · dsimp only
        rcases hV : uploadVaultContents fail vault st1 with ⟨res2, st2⟩
        have hls2 : st2.lastSyncTimestamp = st1.lastSyncTimestamp :=
          (show (uploadVaultContents fail vault st1).2 = st2 by rw [hV]) ▸
            (evu_uploadFolderContents fail vault "/" st1).lastSync
        rcases res2 with e | u2
        · exact ⟨fun _ => hls2.trans hls1, fun h => by simp at h⟩
        · exact ⟨fun h => by simp at h, fun _ => rfl⟩

/-- Witness: a pass aborted by a token-refresh failure reports an error
and keeps the previous `lastSyncTimestamp`. -/
theorem lastSync_only_on_success_witness :
    (syncWithGoogleDrive noFail true [] 5 (pluginLoad [("a", "b")] (some 7) "tok" ⟨[], 0⟩)).1 =
      false ∧
    (syncWithGoogleDrive noFail true [] 5
        (pluginLoad [("a", "b")] (some 7) "tok" ⟨[], 0⟩)).2.lastSyncTimestamp = some 7 :=
  ⟨rfl, (lastSync_only_on_success noFail true [] 5 _).1 rfl⟩

/-! ### C9 — MIME classification -/

/-- C9: `getMimeType` is a total, case-insensitive function of the
extension: it agrees with itself on the lower-cased extension, always
returns one of exactly six strings, and maps each lower-cased extension
to the documented MIME type. -/
theorem getMimeType_classification (e : String) :
    getMimeType e = getMimeType (jsToLower e) ∧
    (getMimeType e = "text/markdown" ∨ getMimeType e = "image/png" ∨
     getMimeType e = "image/jpeg" ∨ getMimeType e = "image/gif" ∨
     getMimeType e = "application/json" ∨ getMimeType e = "application/octet-stream") ∧
    (jsToLower e = "md" → getMimeType e = "text/markdown") ∧
    (jsToLower e = "png" → getMimeType e = "image/png") ∧
    (jsToLower e = "jpg" ∨ jsToLower e = "jpeg" → getMimeType e = "image/jpeg") ∧
    (jsToLower e = "gif" → getMimeType e = "image/gif") ∧
    (jsToLower e = "json" → getMimeType e = "application/json") ∧
    (jsToLower e ≠ "md" → jsToLower e ≠ "png" → jsToLower e ≠ "jpg" →
      jsToLower e ≠ "jpeg" → jsToLower e ≠ "gif" → jsToLower e ≠ "json" →
      getMimeType e = "application/octet-stream") := by
  have hg : ∀ s : String, getMimeType s =
      (if jsToLower s = "md" then "text/markdown"
       else if jsToLower s = "png" then "image/png"
       else if jsToLower s = "jpg" ∨ jsToLower s = "jpeg" then "image/jpeg"
       else if jsToLower s = "gif" then "image/gif"
       else if jsToLower s = "json" then "application/json"
       else "application/octet-stream") := fun _ => rfl
  refine ⟨?_, ?_, ?_, ?_, ?_, ?_, ?_, ?_⟩
  · rw [hg, hg, jsToLower_idem]
  · rw [hg]; split_ifs <;> simp
  · intro h; rw [hg]; simp [h]
  · intro h; rw [hg]; simp [h]
  · intro h; rw [hg]
    rcases h with h | h <;> simp [h]
  · intro h; rw [hg]; simp [h]
  · intro h; rw [hg]; simp [h]
  · intro h1 h2 h3 h4 h5 h6; rw [hg]; simp [h1, h2, h3, h4, h5, h6]

/-- Witness: `getMimeType` on concrete extensions, upper and lower case. -/
theorem getMimeType_classification_witness :
    getMimeType "MD" = "text/markdown" ∧ getMimeType "jpeg" = "image/jpeg" ∧
      getMimeType "txt" = "application/octet-stream" :=
  ⟨(getMimeType_classification "MD").2.2.1 (by decide),
   (getMimeType_classification "jpeg").2.2.2.2.1 (Or.inr (by decide)),
   (getMimeType_classification "txt").2.2.2.2.2.2.2 (by decide) (by decide)
     (by decide) (by decide) (by decide) (by decide)⟩

/-! ### C4 — a failing create/update call is caught -/

/-- C4: when the remote create-file or update-file call for a single file
fails, `uploadFile` catches the error and returns a null id instead of
propagating it, and the `fileIds` mapping is exactly as before the
attempt. -/
theorem uploadFile_failure_caught (fail : Nat → Bool) (fp c mt : String) (st : St)
    (pid : String) (st1 : St)
    (hE : ensureDriveFolder fail (dirname fp) st = (.ok pid, st1))
    (hF : fail st1.trace.length = true) :
    ∃ st2, uploadFile fail fp c mt st = (.ok none, st2) ∧ st2.fileIds = st.fileIds := by
  have hfi : st1.fileIds = st.fileIds :=
    (show (ensureDriveFolder fail (dirname fp) st).2 = st1 by rw [hE]) ▸
      (ev_ensureDriveFolder fail (dirname fp) st).fileIds
  unfold uploadFile
  dsimp only
  rw [hE]
  dsimp only
  split
  · unfold issueUpdateFile
    dsimp only
    rw [if_pos hF]
    exact ⟨_, rfl, hfi⟩
  · unfold issueCreateFile
    dsimp only
    rw [if_pos hF]
    exact ⟨_, rfl, hfi⟩

/-- Witness: with the parent folder already resolved and a failing remote
call, the upload returns a null id and leaves `fileIds` untouched. -/
theorem uploadFile_failure_caught_witness :
    ∃ st2,
      uploadFile (fun _ => true) "/a.md" "hi" "text/markdown"
          { obsidianFolderId := some "R", drivefolderIds := [("/", "R")],
            fileIds := [("/b.md", "X")], lastSyncTimestamp := none,
            googleDriveRefreshToken := "tok", remote := ⟨[], 0⟩, trace := [] } =
        (.ok none, st2) ∧
      st2.fileIds = [("/b.md", "X")] :=
  uploadFile_failure_caught (fun _ => true) "/a.md" "hi" "text/markdown" _ "R" _ rfl rfl

/-! ### C6 — update a recorded id, create otherwise -/

/-- C6: if the `fileIds` cache holds a (nonempty) remote id for the path,
`uploadFile` issues exactly one update call against that recorded id and
no create call; if the cache holds none, it issues exactly one create
call under the resolved parent folder id. -/
theorem uploadFile_update_vs_create (fail : Nat → Bool) (fp c mt : String) (st : St)
    (pid : String) (st1 : St)
    (hE : ensureDriveFolder fail (dirname fp) st = (.ok pid, st1)) :
    (∀ v, jsGet st.fileIds fp = v → v ≠ "" →
      (uploadFile fail fp c mt st).2.trace =
        st1.trace ++ [RCall.updateFileC v (basename fp) mt c]) ∧
    (jsGet st.fileIds fp = "" →
      (uploadFile fail fp c mt st).2.trace =
        st1.trace ++ [RCall.createFileC pid (basename fp) mt c]) := by
  have hfi : st1.fileIds = st.fileIds :=
    (show (ensureDriveFolder fail (dirname fp) st).2 = st1 by rw [hE]) ▸
      (ev_ensureDriveFolder fail (dirname fp) st).fileIds
  constructor
  · intro v hv hne
    unfold uploadFile
    dsimp only
    rw [hE]
    dsimp only
    rw [if_pos (show jsGet st1.fileIds fp ≠ "" by rw [hfi, hv]; exact hne)]
    unfold issueUpdateFile
    dsimp only
    rw [hfi, hv]
    by_cases hf : fail st1.trace.length = true
    · rw [if_pos hf]
    · rw [if_neg hf]
  · intro hv
    unfold uploadFile
    dsimp only
    rw [hE]
    dsimp only
    rw [if_neg (show ¬jsGet st1.fileIds fp ≠ "" by rw [hfi, hv]; exact fun h => h rfl)]
    unfold issueCreateFile
    dsimp only
    by_cases hf : fail st1.trace.length = true
    · rw [if_pos hf]
    · rw [if_neg hf]

/-- Witness: re-uploading a file whose id was recorded as `"X"` issues one
`updateFile` call against `"X"` (and no create call); uploading a path
with no recorded id issues one `createFile` call under the resolved
parent. -/
theorem uploadFile_update_vs_create_witness :
    (uploadFile noFail "/a.md" "v2" "text/markdown"
        { obsidianFolderId := some "R", drivefolderIds := [("/", "R")],
          fileIds := [("/a.md", "X")], lastSyncTimestamp := none,
          googleDriveRefreshToken := "tok", remote := ⟨[], 0⟩, trace := [] }).2.trace =
      [RCall.updateFileC "X" "a.md" "text/markdown" "v2"] ∧
    (uploadFile noFail "/c.md" "v1" "text/markdown"
        { obsidianFolderId := some "R", drivefolderIds := [("/", "R")],
          fileIds := [("/a.md", "X")], lastSyncTimestamp := none,
          googleDriveRefreshToken := "tok", remote := ⟨[], 0⟩, trace := [] }).2.trace =
      [RCall.createFileC "R" "c.md" "text/markdown" "v1"] :=
  ⟨(uploadFile_update_vs_create noFail "/a.md" "v2" "text/markdown"
      { obsidianFolderId := some "R", drivefolderIds := [("/", "R")],
        fileIds := [("/a.md", "X")], lastSyncTimestamp := none,
        googleDriveRefreshToken := "tok", remote := ⟨[], 0⟩, trace := [] } "R"
      { obsidianFolderId := some "R", drivefolderIds := [("/", "R")],
        fileIds := [("/a.md", "X")], lastSyncTimestamp := none,
        googleDriveRefreshToken := "tok", remote := ⟨[], 0⟩, trace := [] } rfl).1
      "X" rfl (by decide),
   (uploadFile_update_vs_create noFail "/c.md" "v1" "text/markdown"
      { obsidianFolderId := some "R", drivefolderIds := [("/", "R")],
        fileIds := [("/a.md", "X")], lastSyncTimestamp := none,
        googleDriveRefreshToken := "tok", remote := ⟨[], 0⟩, trace := [] } "R"
      { obsidianFolderId := some "R", drivefolderIds := [("/", "R")],
        fileIds := [("/a.md", "X")], lastSyncTimestamp := none,
        googleDriveRefreshToken := "tok", remote := ⟨[], 0⟩, trace := [] } rfl).2 rfl⟩

/-! ### C7 — resolver call bounds -/

theorem trace_issueList (fail : Nat → Bool) (p : Option String) (n : String) (st : St) :
    (issueList fail p n st).2.trace = st.trace ++ [RCall.listQ p n] := by
  unfold issueList; dsimp only; split <;> rfl

theorem trace_issueCreateFolder (fail : Nat → Bool) (p n : String) (st : St) :
    (issueCreateFolder fail p n st).2.trace = st.trace ++ [RCall.createFolderC p n] := by
  unfold issueCreateFolder; dsimp only; split <;> rfl

theorem cumPaths_length (cp : String) (segs : List String) :
    (cumPaths cp segs).length = segs.length := by
  induction segs generalizing cp with
  | nil => rfl
  | cons p rest ih => simp [cumPaths, ih]

theorem uncached_le (m : JMap) (cp : String) (segs : List String) :
    uncached m cp segs ≤ segs.length := by
  calc uncached m cp segs ≤ (cumPaths cp segs).length := List.length_filter_le _ _
    _ = segs.length := cumPaths_length cp segs

theorem uncached_cons (m : JMap) (cp part : String) (rest : List String) :
    uncached m cp (part :: rest) =
      (if jsGet m (pathJoin cp part) = "" then 1 + uncached m (pathJoin cp part) rest
       else uncached m (pathJoin cp part) rest) := by
  by_cases h : jsGet m (pathJoin cp part) = "" <;>
    simp [uncached, cumPaths, h, Nat.add_comm]

theorem uncached_jsSet_le (m : JMap) (k v cp : String) (segs : List String)
    (hk : jsGet m k = "") :
    uncached (jsSet m k v) cp segs ≤ uncached m cp segs := by
  simp only [uncached, ← List.countP_eq_length_filter]
  apply List.countP_mono_left
  intro p _ hp
  simp only [decide_eq_true_eq] at hp ⊢
  rw [jsGet_jsSet] at hp
  rcases eq_or_ne p k with hpk | hpk
  · rw [hpk]; exact hk
  · rw [if_neg hpk] at hp; exact hp

/-- The remote calls of one `ensureDriveFolder` loop run: at most one list
query and at most one create-folder call per cache-missing segment, and
none at all when every visited path is cached. -/
theorem ensureDriveFolderLoop_calls (fail : Nat → Bool) (segs : List String)
    (cp pid : String) (st : St) :
    ∃ ex, (ensureDriveFolderLoop fail segs cp pid st).2.trace = st.trace ++ ex ∧
      countListQ ex ≤ uncached st.drivefolderIds cp segs ∧
      countCreateFolderC ex ≤ uncached st.drivefolderIds cp segs ∧
      (uncached st.drivefolderIds cp segs = 0 → ex = []) := by
  induction segs generalizing cp pid st with
  | nil => exact ⟨[], by simp [ensureDriveFolderLoop], by simp [countListQ],
      by simp [countCreateFolderC], fun _ => rfl⟩
  | cons part rest ih =>
    rw [ensureDriveFolderLoop]
    dsimp only
    rw [uncached_cons]
    by_cases hc0 : jsGet st.drivefolderIds (pathJoin cp part) = ""
    · rw [if_neg (show ¬jsGet st.drivefolderIds (pathJoin cp part) ≠ "" from fun h => h hc0),
        if_pos hc0]
      rcases hL : issueList fail (some pid) part st with ⟨res, st2⟩
      have htr2 : st2.trace = st.trace ++ [RCall.listQ (some pid) part] :=
        (show (issueList fail (some pid) part st).2 = st2 by rw [hL]) ▸
          trace_issueList _ _ _ _
      have hcc2 : st2.drivefolderIds = st.drivefolderIds :=
        (show (issueList fail (some pid) part st).2 = st2 by rw [hL]) ▸
          cache_issueList _ _ _ _
      rcases res with e | ids
      · exact ⟨[RCall.listQ (some pid) part], htr2, by simp [countListQ],
          by simp [countCreateFolderC], by omega⟩
      · rcases ids with _ | ⟨i, restIds⟩
        · dsimp only
          rcases hC : issueCreateFolder fail pid part st2 with ⟨res2, st3⟩
          have htr3 : st3.trace = st2.trace ++ [RCall.createFolderC pid part] :=
            (show (issueCreateFolder fail pid part st2).2 = st3 by rw [hC]) ▸
              trace_issueCreateFolder _ _ _ _
          have hcc3 : st3.drivefolderIds = st2.drivefolderIds :=
            (show (issueCreateFolder fail pid part st2).2 = st3 by rw [hC]) ▸
              cache_issueCreateFolder _ _ _ _
          rcases res2 with e | j
          · refine ⟨[RCall.listQ (some pid) part, RCall.createFolderC pid part], ?_,
              by simp [countListQ, List.countP_cons], by simp [countCreateFolderC, List.countP_cons],
              by omega⟩
            show st3.trace = _
            rw [htr3, htr2, List.append_assoc]
            rfl
          · dsimp only
            obtain ⟨ex2, htr4, hl4, hcf4, hz4⟩ :=
              ih (pathJoin cp part) j
                { st3 with drivefolderIds := jsSet st3.drivefolderIds (pathJoin cp part) j }
            have hle : uncached (jsSet st3.drivefolderIds (pathJoin cp part) j)
                (pathJoin cp part) rest ≤ uncached st.drivefolderIds (pathJoin cp part) rest := by
              rw [hcc3, hcc2]
              exact uncached_jsSet_le _ _ _ _ _ hc0
            refine ⟨[RCall.listQ (some pid) part, RCall.createFolderC pid part] ++ ex2,
              ?_, ?_, ?_, by omega⟩
            · rw [htr4]
              show st3.trace ++ ex2 = _
              rw [htr3, htr2]
              simp
            · have hb : countListQ ex2 ≤ uncached st.drivefolderIds (pathJoin cp part) rest :=
                hl4.trans hle
              have : countListQ ([RCall.listQ (some pid) part,
                  RCall.createFolderC pid part] ++ ex2) = 1 + countListQ ex2 := by
                simp [countListQ, List.countP_cons, List.countP_append, Nat.add_comm]
              omega
            · have hb : countCreateFolderC ex2 ≤
                  uncached st.drivefolderIds (pathJoin cp part) rest := hcf4.trans hle
              have : countCreateFolderC ([RCall.listQ (some pid) part,
                  RCall.createFolderC pid part] ++ ex2) = 1 + countCreateFolderC ex2 := by
                simp [countCreateFolderC, List.countP_cons, List.countP_append, Nat.add_comm]
              omega
        · dsimp only
          obtain ⟨ex2, htr4, hl4, hcf4, hz4⟩ :=
            ih (pathJoin cp part) i
              { st2 with drivefolderIds := jsSet st2.drivefolderIds (pathJoin cp part) i }
          have hle : uncached (jsSet st2.drivefolderIds (pathJoin cp part) i)
              (pathJoin cp part) rest ≤ uncached st.drivefolderIds (pathJoin cp part) rest := by
            rw [hcc2]
            exact uncached_jsSet_le _ _ _ _ _ hc0
          refine ⟨[RCall.listQ (some pid) part] ++ ex2, ?_, ?_, ?_, by omega⟩
          · rw [htr4]
            show st2.trace ++ ex2 = _
            rw [htr2]
            simp
          · have hb : countListQ ex2 ≤ uncached st.drivefolderIds (pathJoin cp part) rest :=
              hl4.trans hle
            have : countListQ ([RCall.listQ (some pid) part] ++ ex2) = 1 + countListQ ex2 := by
              simp [countListQ, List.countP_cons, List.countP_append, Nat.add_comm]
            omega
          · have hb : countCreateFolderC ex2 ≤
                uncached st.drivefolderIds (pathJoin cp part) rest := hcf4.trans hle
            have : countCreateFolderC ([RCall.listQ (some pid) part] ++ ex2) =
                countCreateFolderC ex2 := by
              simp [countCreateFolderC, List.countP_cons, List.countP_append]
            omega
    · rw [if_pos hc0, if_neg hc0]
      exact ih _ _ _

/-- C7: one call to `ensureDriveFolder` on a path of `n` segments issues
at most `n` list-children queries and at most `n` create-folder calls —
more precisely at most one of each per segment whose path is missing from
the volatile folder-id cache — and issues no remote call at all when
every segment's path is cached. -/
theorem resolver_call_bounds (fail : Nat → Bool) (folderPath : String) (st : St) :
    ∃ ex, (ensureDriveFolder fail folderPath st).2.trace = st.trace ++ ex ∧
      countListQ ex ≤ uncached st.drivefolderIds "" (splitParts folderPath) ∧
      countCreateFolderC ex ≤ uncached st.drivefolderIds "" (splitParts folderPath) ∧
      uncached st.drivefolderIds "" (splitParts folderPath) ≤ (splitParts folderPath).length ∧
      (uncached st.drivefolderIds "" (splitParts folderPath) = 0 → ex = []) := by
  obtain ⟨ex, htr, hl, hc, hz⟩ := ensureDriveFolderLoop_calls fail (splitParts folderPath) ""
    (match st.obsidianFolderId with | some i => i | none => "null") st
  exact ⟨ex, htr, hl, hc, uncached_le _ _ _, hz⟩

/-- Witness: resolving `"/a/b"` with both `"a"` and `"a/b"` cached issues
zero remote calls. -/
theorem resolver_call_bounds_witness :
    (ensureDriveFolder noFail "/a/b"
        { obsidianFolderId := some "R", drivefolderIds := [("a", "A"), ("a/b", "B")],
          fileIds := [], lastSyncTimestamp := none, googleDriveRefreshToken := "t",
          remote := ⟨[], 0⟩, trace := [] }).2.trace = [] := by
  obtain ⟨ex, htr, _, _, _, hz⟩ := resolver_call_bounds noFail "/a/b"
    { obsidianFolderId := some "R", drivefolderIds := [("a", "A"), ("a/b", "B")],
      fileIds := [], lastSyncTimestamp := none, googleDriveRefreshToken := "t",
      remote := ⟨[], 0⟩, trace := [] }
  rw [htr, hz (by decide)]
  rfl

/-! ### C10 — fileIds keys are never removed -/

/-- One sync pass never removes a `fileIds` key, and writes an entry only
with a nonempty id. -/
theorem sync_fileIds_mono (fail : Nat → Bool) (authFail : Bool) (vault : List VNode)
    (now : Nat) (st : St) :
    (∀ k, hasKey st.fileIds k = true →
      hasKey (syncWithGoogleDrive fail authFail vault now st).2.fileIds k = true) ∧
    (∀ k, jsGetOpt (syncWithGoogleDrive fail authFail vault now st).2.fileIds k =
        jsGetOpt st.fileIds k ∨
      ∃ i, jsGetOpt (syncWithGoogleDrive fail authFail vault now st).2.fileIds k = some i ∧
        i ≠ "") := by
  unfold syncWithGoogleDrive
  split
  · exact ⟨fun k hk => hk, fun k => Or.inl rfl⟩
  · split
    · exact ⟨fun k hk => hk, fun k => Or.inl rfl⟩
    · dsimp only
      rcases hO : ensureObsidianFolder fail
          { st with drivefolderIds := [], trace := [] } with ⟨res, st1⟩
      have hfi1 : st1.fileIds = st.fileIds :=
        (show (ensureObsidianFolder fail { st with drivefolderIds := [], trace := [] }).2 = st1
          by rw [hO]) ▸ (ensureObsidianFolder_frame fail _).2.2.1
      rcases res with e | u
      · exact ⟨fun k hk => by rw [hfi1]; exact hk, fun k => Or.inl (by rw [hfi1])⟩
      · dsimp only
        rcases hV : uploadVaultContents fail vault st1 with ⟨res2, st2⟩
        have hevu : EvU st1 st2 :=
          (show (uploadVaultContents fail vault st1).2 = st2 by rw [hV]) ▸
            evu_uploadFolderContents fail vault "/" st1
        rcases res2 with e | u2
        · exact ⟨fun k hk => hevu.fileKeys k (by rw [hfi1]; exact hk),
            fun k => by rw [← hfi1]; exact hevu.fileVals k⟩
        · exact ⟨fun k hk => hevu.fileKeys k (by rw [hfi1]; exact hk),
            fun k => by rw [← hfi1]; exact hevu.fileVals k⟩

/-- Any sequence of sync passes never removes a `fileIds` key, and writes
entries only with nonempty ids. -/
theorem runPasses_fileIds_mono (passes : List Pass) (st : St) :
    (∀ k, hasKey st.fileIds k = true → hasKey (runPasses passes st).fileIds k = true) ∧
    (∀ k, jsGetOpt (runPasses passes st).fileIds k = jsGetOpt st.fileIds k ∨
      ∃ i, jsGetOpt (runPasses passes st).fileIds k = some i ∧ i ≠ "") := by
  induction passes generalizing st with
  | nil => exact ⟨fun k hk => hk, fun k => Or.inl rfl⟩
  | cons p ps ih =>
    rw [runPasses]
    obtain ⟨ihk, ihv⟩ := ih (syncWithGoogleDrive p.fail p.authFail p.vault p.now st).2
    obtain ⟨sk, sv⟩ := sync_fileIds_mono p.fail p.authFail p.vault p.now st
    refine ⟨fun k hk => ihk k (sk k hk), fun k => ?_⟩
    rcases ihv k with h | ⟨i, hi, hne⟩
    · rcases sv k with h2 | ⟨i, hi, hne⟩
      · exact Or.inl (h.trans h2)
      · exact Or.inr ⟨i, h.trans hi, hne⟩
    · exact Or.inr ⟨i, hi, hne⟩

/-- C10: across loading, any number of sync passes, and unload, a path
present in the durable `fileIds` mapping stays present; an entry changes
only by being overwritten with a nonempty id returned by a successful
upload. -/
theorem fileIds_never_removed (data : JMap) (lastSync : Option Nat) (tok : String)
    (r : Remote) (passes : List Pass) (k : String) :
    (hasKey data k = true →
      hasKey (pluginUnload (runPasses passes (pluginLoad data lastSync tok r))).fileIds k =
        true) ∧
    (jsGetOpt (pluginUnload (runPasses passes (pluginLoad data lastSync tok r))).fileIds k =
        jsGetOpt data k ∨
      ∃ i, jsGetOpt
          (pluginUnload (runPasses passes (pluginLoad data lastSync tok r))).fileIds k =
            some i ∧ i ≠ "") := by
  obtain ⟨hk, hv⟩ := runPasses_fileIds_mono passes (pluginLoad data lastSync tok r)
  exact ⟨fun h => hk k h, hv k⟩

/-- Witness: a key loaded from storage is still present after a pass and
unload. -/
theorem fileIds_never_removed_witness :
    hasKey (pluginUnload (runPasses [⟨noFail, true, [], 9⟩]
        (pluginLoad [("x", "1")] none "tok" ⟨[], 0⟩))).fileIds "x" = true :=
  (fileIds_never_removed [("x", "1")] none "tok" ⟨[], 0⟩ [⟨noFail, true, [], 9⟩] "x").1
    (by decide)

/-! ### Evaluation helpers for concrete runs -/

theorem toString_nat_0 : (toString (0 : Nat)) = "0" := rfl
theorem toString_nat_1 : (toString (1 : Nat)) = "1" := rfl
theorem toString_nat_2 : (toString (2 : Nat)) = "2" := rfl
theorem jsToLower_md : jsToLower "md" = "md" := rfl

/-! ### C3 — a folder-operation failure aborts the pass -/

/-- C3 counterexample: with an empty remote store and a vault holding two
folders `"a"` and `"b"`, failing the single list-children query issued
while resolving `"a"` (call index 2, after the two root calls) does not
skip that item and continue: the pass ends in the error handler
(`"Error during sync"`), the trace stops at the failed call, and no call
for `"b"` is ever issued. -/
theorem folder_failure_counterexample :
    (syncWithGoogleDrive (fun k => k == 2) false [.vfolder "a" [], .vfolder "b" []] 100
        (pluginLoad [] none "tok" ⟨[], 0⟩)).1 = false ∧
    (syncWithGoogleDrive (fun k => k == 2) false [.vfolder "a" [], .vfolder "b" []] 100
        (pluginLoad [] none "tok" ⟨[], 0⟩)).2.trace =
      [RCall.listQ none "Obsidian Vault", RCall.createFolderC "" "Obsidian Vault",
       RCall.listQ (some "fid0") "a"] := by
  simp [syncWithGoogleDrive, ensureObsidianFolder, uploadVaultContents, uploadFolderContents,
    uploadFolderItem, uploadObsidianFile, uploadFile, ensureDriveFolder, ensureDriveFolderLoop,
    issueList, issueCreateFolder, issueCreateFile, issueUpdateFile, remoteList, remoteListF,
    folderMatches, mintId, jsGet, jsGetOpt, jsSet, hasKey, pathJoin, splitParts, jsSplit,
    splitChars, dirname, basename, joinSegs, getMimeType, skipCheck, pluginLoad,
    toString_nat_0, toString_nat_1, toString_nat_2, jsToLower_md]

/-- C3 amended: a remote failure on a folder operation (the list-children
query or create-folder call issued while resolving one folder path) is
not caught per item — it propagates out of the traversal immediately, so
the remaining items are not processed and the pass ends in the pass-level
error handler, which logs it. -/
theorem folder_failure_aborts (fail : Nat → Bool) (n : String) (ch rest : List VNode)
    (cp : String) (st : St) (e : Unit) (st2 : St)
    (hE : ensureDriveFolder fail (pathJoin cp n) st = (.error e, st2)) :
    uploadFolderContents fail (.vfolder n ch :: rest) cp st = (.error e, st2) := by
  rw [uploadFolderContents]
  rw [show uploadFolderItem fail (.vfolder n ch) cp st = (.error e, st2) by
    rw [uploadFolderItem, hE]]

/-- Witness: with every remote call failing, the list query for folder
`"a"` throws and the traversal aborts without touching folder `"b"`. -/
theorem folder_failure_aborts_witness :
    uploadFolderContents (fun _ => true) [.vfolder "a" [], .vfolder "b" []] "/"
        { obsidianFolderId := some "R", drivefolderIds := [("/", "R")], fileIds := [],
          lastSyncTimestamp := none, googleDriveRefreshToken := "tok",
          remote := ⟨[], 0⟩, trace := [] } =
      (.error (),
        { obsidianFolderId := some "R", drivefolderIds := [("/", "R")], fileIds := [],
          lastSyncTimestamp := none, googleDriveRefreshToken := "tok",
          remote := ⟨[], 0⟩, trace := [RCall.listQ (some "R") "a"] }) :=
  folder_failure_aborts (fun _ => true) "a" [] [.vfolder "b" []] "/" _ () _ rfl

/-! ### C5 — identity-cache file keys carry a leading separator -/

/-- C5 counterexample: syncing a vault containing exactly the file
`notes/a.md` with no prior sync records the new remote file id under the
key `"/notes/a.md"` — with a leading separator — and nothing is recorded
under `"notes/a.md"`. -/
theorem identity_key_counterexample :
    (syncWithGoogleDrive noFail false [.vfolder "notes" [.vfile "a.md" "md" 5 "hello"]] 100
        (pluginLoad [] none "tok" ⟨[], 0⟩)).2.fileIds = [("/notes/a.md", "fid2")] ∧
    jsGetOpt (syncWithGoogleDrive noFail false
        [.vfolder "notes" [.vfile "a.md" "md" 5 "hello"]] 100
        (pluginLoad [] none "tok" ⟨[], 0⟩)).2.fileIds "notes/a.md" = none := by
  simp [syncWithGoogleDrive, ensureObsidianFolder, uploadVaultContents, uploadFolderContents,
    uploadFolderItem, uploadObsidianFile, uploadFile, ensureDriveFolder, ensureDriveFolderLoop,
    issueList, issueCreateFolder, issueCreateFile, issueUpdateFile, remoteList, remoteListF,
    folderMatches, mintId, jsGet, jsGetOpt, jsSet, hasKey, pathJoin, splitParts, jsSplit,
    splitChars, dirname, basename, joinSegs, getMimeType, skipCheck, pluginLoad, noFail,
    toString_nat_0, toString_nat_1, toString_nat_2, jsToLower_md]

/-- C5 amended: `fileIds` keys are the root-relative forward-slash-joined
path including the leading separator of the pass root `"/"` (no trailing
slash): the scenario records the new remote file id under
`"/notes/a.md"`, and the pass completes. -/
theorem identity_key_leading_slash :
    jsGetOpt (syncWithGoogleDrive noFail false
        [.vfolder "notes" [.vfile "a.md" "md" 5 "hello"]] 100
        (pluginLoad [] none "tok" ⟨[], 0⟩)).2.fileIds "/notes/a.md" = some "fid2" ∧
    (syncWithGoogleDrive noFail false [.vfolder "notes" [.vfile "a.md" "md" 5 "hello"]] 100
        (pluginLoad [] none "tok" ⟨[], 0⟩)).1 = true := by
  simp [syncWithGoogleDrive, ensureObsidianFolder, uploadVaultContents, uploadFolderContents,
    uploadFolderItem, uploadObsidianFile, uploadFile, ensureDriveFolder, ensureDriveFolderLoop,
    issueList, issueCreateFolder, issueCreateFile, issueUpdateFile, remoteList, remoteListF,
    folderMatches, mintId, jsGet, jsGetOpt, jsSet, hasKey, pathJoin, splitParts, jsSplit,
    splitChars, dirname, basename, joinSegs, getMimeType, skipCheck, pluginLoad, noFail,
    toString_nat_0, toString_nat_1, toString_nat_2, jsToLower_md]

/-! ### Path-shape lemmas (towards idempotence) -/

theorem splitChars_no_slash (xs : List Char) (acc : List Char) (h : '/' ∉ xs) :
    splitChars xs acc = [String.mk (acc.reverse ++ xs)] := by
  induction xs generalizing acc with
  | nil => simp [splitChars]
  | cons c cs ih =>
    have hc : c ≠ '/' := fun hc => h (hc ▸ List.mem_cons_self c cs)
    have hcs : '/' ∉ cs := fun hm => h (List.mem_cons_of_mem c hm)
    rw [splitChars, if_neg (fun hh => hc hh), ih _ hcs]
    simp

theorem splitChars_append_slash (xs ys : List Char) (acc : List Char) :
    splitChars (xs ++ '/' :: ys) acc = splitChars xs acc ++ splitChars ys [] := by
  induction xs generalizing acc with
  | nil => simp [splitChars]
  | cons c cs ih =>
    by_cases hc : c = '/'
    · subst hc
      rw [List.cons_append, splitChars, if_pos rfl, splitChars, if_pos rfl, ih]
      simp
    · rw [List.cons_append, splitChars, if_neg (fun hh => hc hh), splitChars,
        if_neg (fun hh => hc hh), ih]

theorem jsSplit_seg (q : String) (h : validSeg q = true) : jsSplit q = [q] := by
  have hq : '/' ∉ q.data := by
    simp only [validSeg, Bool.and_eq_true, Bool.not_eq_true'] at h
    simpa using h.2
  rw [jsSplit, splitChars_no_slash _ _ hq]
  simp

theorem jsSplit_append (a b : String) : jsSplit (a ++ "/" ++ b) = jsSplit a ++ jsSplit b := by
  rw [jsSplit, jsSplit, jsSplit, String.data_append, String.data_append,
    show ("/" : String).data = ['/'] from rfl, List.append_assoc]
  exact splitChars_append_slash a.data b.data []

theorem jsSplit_head_slash (x : String) : jsSplit ("/" ++ x) = "" :: jsSplit x := by
  have h : "/" ++ x = "" ++ "/" ++ x := by simp
  rw [h, jsSplit_append]
  rfl

theorem joinSegs_cons_cons (a b : String) (t : List String) :
    joinSegs (a :: b :: t) = a ++ "/" ++ joinSegs (b :: t) := rfl

theorem string_eq_empty_of_data (s : String) (h : s.data = []) : s = "" := by
  cases s with
  | mk d =>
    simp only [String.data] at h
    rw [h]

theorem append_sep_ne_empty (s q : String) : s ++ "/" ++ q ≠ "" := by
  intro he
  have h := congrArg String.data he
  rw [String.data_append, String.data_append,
    show ("/" : String).data = ['/'] from rfl] at h
  simp at h

theorem append_sep_ne_slash (s q : String) (hs : s ≠ "") : s ++ "/" ++ q ≠ "/" := by
  intro he
  apply hs
  have h := congrArg String.data he
  rw [String.data_append, String.data_append,
    show ("/" : String).data = ['/'] from rfl] at h
  have hlen := congrArg List.length h
  simp only [List.length_append, List.length_cons, List.length_singleton] at hlen
  exact string_eq_empty_of_data s (List.eq_nil_of_length_eq_zero (by omega))

theorem foldl_pathJoin_shape (qs : List String) (s : String) (hs1 : s ≠ "") (hs2 : s ≠ "/") :
    qs.foldl pathJoin s = if qs = [] then s else s ++ "/" ++ joinSegs qs := by
  induction qs generalizing s with
  | nil => simp
  | cons q rest ih =>
    have hpj : pathJoin s q = s ++ "/" ++ q := by
      rw [pathJoin, if_neg hs1, if_neg hs2]
    rw [List.foldl_cons, hpj, ih (s ++ "/" ++ q) (append_sep_ne_empty s q)
      (append_sep_ne_slash s q hs1), if_neg (show ¬q :: rest = [] by simp)]
    rcases rest with _ | ⟨r, t⟩
    · rfl
    · rw [if_neg (show ¬r :: t = [] by simp), joinSegs_cons_cons]
      simp [String.append_assoc]

theorem slash_append_ne_empty (q : String) : "/" ++ q ≠ "" := by
  intro he
  have h := congrArg String.data he
  rw [String.data_append, show ("/" : String).data = ['/'] from rfl] at h
  simp at h

theorem slash_append_ne_slash (q : String) (hq : q ≠ "") : "/" ++ q ≠ "/" := by
  intro he
  apply hq
  have h := congrArg String.data he
  rw [String.data_append, show ("/" : String).data = ['/'] from rfl] at h
  simp only [List.cons_append, List.nil_append] at h
  have := List.tail_eq_of_cons_eq h
  exact string_eq_empty_of_data q this

theorem validSeg_ne_empty (q : String) (h : validSeg q = true) : q ≠ "" := by
  simp only [validSeg, Bool.and_eq_true, decide_eq_true_eq] at h
  simpa using h.1

theorem mkPath_cons (q : String) (qs : List String) (hq : q ≠ "") :
    mkPath (q :: qs) = "/" ++ joinSegs (q :: qs) := by
  rw [mkPath, List.foldl_cons]
  have hpj : pathJoin "/" q = "/" ++ q := by rw [pathJoin]; simp
  rw [hpj, foldl_pathJoin_shape qs ("/" ++ q) (slash_append_ne_empty q)
    (slash_append_ne_slash q hq)]
  rcases qs with _ | ⟨r, t⟩
  · rfl
  · rw [if_neg (show ¬r :: t = [] by simp), joinSegs_cons_cons]
    simp [String.append_assoc]

theorem jsSplit_joinSegs (q : String) (qs : List String)
    (h : ∀ x ∈ q :: qs, validSeg x = true) :
    jsSplit (joinSegs (q :: qs)) = q :: qs := by
  induction qs generalizing q with
  | nil => exact jsSplit_seg q (h q (by simp))
  | cons r t ih =>
    rw [joinSegs_cons_cons, jsSplit_append, jsSplit_seg q (h q (by simp)),
      ih r (fun x hx => h x (by simpa using Or.inr hx))]
    rfl

theorem jsSplit_mkPath (q : String) (qs : List String)
    (h : ∀ x ∈ q :: qs, validSeg x = true) :
    jsSplit (mkPath (q :: qs)) = "" :: q :: qs := by
  rw [mkPath_cons q qs (validSeg_ne_empty q (h q (by simp))), jsSplit_head_slash,
    jsSplit_joinSegs q qs h]

theorem splitParts_mkPath (qs : List String) (h : ∀ x ∈ qs, validSeg x = true) :
    splitParts (mkPath qs) = qs := by
  rcases qs with _ | ⟨q, qt⟩
  · rfl
  · have hne : ∀ x ∈ q :: qt, x ≠ "" := fun x hx => validSeg_ne_empty x (h x hx)
    rw [splitParts, jsSplit_mkPath q qt h]
    have hhead : List.filter (fun s => decide (s ≠ "")) ("" :: q :: qt) =
        List.filter (fun s => decide (s ≠ "")) (q :: qt) := by
      simp
    rw [hhead, List.filter_eq_self.mpr]
    intro x hx
    simpa using hne x hx

theorem empty_append_str (s : String) : "" ++ s = s := by
  apply String.ext
  rw [String.data_append]
  rfl

theorem dirname_mkPath (qs : List String) (n : String)
    (h : ∀ x ∈ qs ++ [n], validSeg x = true) :
    dirname (mkPath (qs ++ [n])) = mkPath qs := by
  rcases qs with _ | ⟨q, qt⟩
  · unfold dirname
    rw [show ([] : List String) ++ [n] = [n] by rfl] at h ⊢
    rw [jsSplit_mkPath n [] (by simpa using h)]
    rfl
  · unfold dirname
    rw [show (q :: qt) ++ [n] = q :: (qt ++ [n]) by rfl] at h ⊢
    rw [jsSplit_mkPath q (qt ++ [n]) (by simpa using h)]
    have hdrop : ("" :: q :: (qt ++ [n])).dropLast = "" :: q :: qt := by
      rw [show ("" :: q :: (qt ++ [n])) = ("" :: q :: qt) ++ [n] by simp]
      exact List.dropLast_concat
    have hq : q ≠ "" := validSeg_ne_empty q (h q (by simp))
    change (match ("" :: q :: (qt ++ [n])).dropLast with
      | [""] => "/"
      | ps => joinSegs ps) = mkPath (q :: qt)
    rw [hdrop]
    change joinSegs ("" :: q :: qt) = mkPath (q :: qt)
    rw [joinSegs_cons_cons, empty_append_str, mkPath_cons q qt hq]


/-! ### No-failure runs -/

theorem issueList_noFail (p : Option String) (n : String) (st : St) :
    issueList noFail p n st =
      (.ok (remoteList st.remote p n), { st with trace := st.trace ++ [RCall.listQ p n] }) := rfl

theorem issueCreateFolder_noFail (p n : String) (st : St) :
    issueCreateFolder noFail p n st =
      (.ok (mintId st.remote),
        { st with
          remote := Remote.mk (st.remote.folders ++ [⟨mintId st.remote, p, n⟩])
            (st.remote.nextId + 1),
          trace := st.trace ++ [RCall.createFolderC p n] }) := rfl

theorem issueCreateFile_noFail (p n mt c : String) (st : St) :
    issueCreateFile noFail p n mt c st =
      (.ok (mintId st.remote),
        { st with
          remote := Remote.mk st.remote.folders (st.remote.nextId + 1),
          trace := st.trace ++ [RCall.createFileC p n mt c] }) := rfl

theorem issueUpdateFile_noFail (i n mt c : String) (st : St) :
    issueUpdateFile noFail i n mt c st =
      (.ok i, { st with trace := st.trace ++ [RCall.updateFileC i n mt c] }) := rfl

theorem mintId_ne (r : Remote) : mintId r ≠ "" := by
  intro h
  have hd := congrArg String.data h
  rw [mintId, String.data_append, show ("fid" : String).data = ['f', 'i', 'd'] from rfl] at hd
  simp at hd

theorem remoteListF_mem (fs : List DFolder) (p : Option String) (n x : String)
    (h : x ∈ remoteListF fs p n) : ∃ f ∈ fs, f.id = x := by
  rw [remoteListF] at h
  obtain ⟨f, hf, hfx⟩ := List.mem_map.mp h
  exact ⟨f, List.mem_of_mem_filter hf, hfx⟩

/-! ### goodIds preservation -/

theorem goodIds_append (r : Remote) (fs : List DFolder) (k : Nat)
    (h : goodIds r = true) (hfs : ∀ f ∈ fs, f.id ≠ "") :
    goodIds (Remote.mk (r.folders ++ fs) k) = true := by
  rw [goodIds, List.all_append]
  refine Bool.and_eq_true_iff.mpr ⟨h, ?_⟩
  rw [List.all_eq_true]
  intro f hf
  simpa using hfs f hf

theorem goodIds_mint_append (r : Remote) (p n : String) (h : goodIds r = true) :
    goodIds (Remote.mk (r.folders ++ [⟨mintId r, p, n⟩]) (r.nextId + 1)) = true :=
  goodIds_append r [⟨mintId r, p, n⟩] (r.nextId + 1) h
    (fun f hf => by
      rcases List.mem_singleton.mp hf with rfl
      exact mintId_ne r)

theorem goodIds_ensureDriveFolderLoop (segs : List String) (cp pid : String) (st : St)
    (h : goodIds st.remote = true) :
    goodIds (ensureDriveFolderLoop noFail segs cp pid st).2.remote = true := by
  induction segs generalizing cp pid st with
  | nil => exact h
  | cons part rest ih =>
    rw [ensureDriveFolderLoop]
    dsimp only
    split
    · exact ih _ _ _ h
    · rw [issueList_noFail]
      dsimp only
      rcases hids : remoteList st.remote (some pid) part with _ | ⟨i, t⟩
      · rw [issueCreateFolder_noFail]
        dsimp only
        exact ih _ _ _ (goodIds_mint_append st.remote pid part h)
      · exact ih _ _ _ h

/-! ### The resolver loop is a no-op on fully cached paths -/

theorem ensureDriveFolderLoop_cached_noop (fail : Nat → Bool) (segs : List String)
    (cp pid : String) (st : St)
    (h : ∀ q ∈ cumPaths cp segs, jsGet st.drivefolderIds q ≠ "") :
    ∃ i, ensureDriveFolderLoop fail segs cp pid st = (.ok i, st) := by
  induction segs generalizing cp pid with
  | nil => exact ⟨pid, rfl⟩
  | cons part rest ih =>
    have hc : jsGet st.drivefolderIds (pathJoin cp part) ≠ "" :=
      h (pathJoin cp part) (by rw [cumPaths]; exact List.mem_cons_self _ _)
    rw [ensureDriveFolderLoop]
    dsimp only
    rw [if_pos hc]
    exact ih (pathJoin cp part) (jsGet st.drivefolderIds (pathJoin cp part))
      (fun q hq => h q (by rw [cumPaths]; exact List.mem_cons_of_mem _ hq))

/-! ### The resolver loop caches every visited path -/

theorem ensureDriveFolderLoop_postCached (segs : List String) (cp pid : String) (st : St)
    (hg : goodIds st.remote = true) :
    ∀ q ∈ cumPaths cp segs,
      jsGet (ensureDriveFolderLoop noFail segs cp pid st).2.drivefolderIds q ≠ "" := by
  induction segs generalizing cp pid st with
  | nil => intro q hq; simp [cumPaths] at hq
  | cons part rest ih =>
    intro q hq
    rw [cumPaths] at hq
    rw [ensureDriveFolderLoop]
    dsimp only
    split
    · rename_i hcached
      rcases List.mem_cons.mp hq with hqe | hq2
      · subst hqe
        rw [(ev_ensureDriveFolderLoop noFail rest (pathJoin cp part)
          (jsGet st.drivefolderIds (pathJoin cp part)) st).cacheMono _ hcached]
        exact hcached
      · exact ih _ _ _ hg q hq2
    · rename_i hcached
      rw [issueList_noFail]
      dsimp only
      rcases hids : remoteList st.remote (some pid) part with _ | ⟨i, t⟩
      · rw [issueCreateFolder_noFail]
        dsimp only
        have hmne : mintId st.remote ≠ "" := mintId_ne st.remote
        have hwrite : jsGet (jsSet st.drivefolderIds (pathJoin cp part) (mintId st.remote))
            (pathJoin cp part) = mintId st.remote := by
          rw [jsGet_jsSet, if_pos rfl]
        rcases List.mem_cons.mp hq with hqe | hq2
        · subst hqe
          rw [(ev_ensureDriveFolderLoop noFail rest (pathJoin cp part) (mintId st.remote)
            _).cacheMono _ (by rw [hwrite]; exact hmne)]
          rw [hwrite]
          exact hmne
        · exact ih _ _ _ (goodIds_mint_append st.remote pid part hg) q hq2
      · dsimp only
        have hine : i ≠ "" := by
          have hmem : i ∈ remoteList st.remote (some pid) part := by
            rw [hids]; exact List.mem_cons_self _ _
          obtain ⟨f, hf, hfx⟩ := remoteListF_mem st.remote.folders (some pid) part i hmem
          rw [goodIds, List.all_eq_true] at hg
          simpa [hfx] using hg f hf
        have hwrite : jsGet (jsSet st.drivefolderIds (pathJoin cp part) i)
            (pathJoin cp part) = i := by
          rw [jsGet_jsSet, if_pos rfl]
        rcases List.mem_cons.mp hq with hqe | hq2
        · subst hqe
          rw [(ev_ensureDriveFolderLoop noFail rest (pathJoin cp part) i
            _).cacheMono _ (by rw [hwrite]; exact hine)]
          rw [hwrite]
          exact hine
        · exact ih (pathJoin cp part) i
            { st with
                drivefolderIds := jsSet st.drivefolderIds (pathJoin cp part) i,
                trace := st.trace ++ [RCall.listQ (some pid) part] } hg q hq2


theorem mkPath_append_one (qs : List String) (n : String) :
    mkPath (qs ++ [n]) = pathJoin (mkPath qs) n := by
  rw [mkPath, mkPath, List.foldl_append]
  rfl

/-- A file upload whose parent path is fully cached leaves the folder
cache, the remote folder list, the root id and the settings untouched
(only `fileIds`, the trace and the fresh-id counter may change). -/
theorem uploadObsidianFile_inplace (n e : String) (m : Nat) (c : String) (qs : List String)
    (st : St) (hqs : ∀ x ∈ qs, validSeg x = true) (hn : validSeg n = true)
    (hpc : ∀ q ∈ cumPaths "" qs, jsGet st.drivefolderIds q ≠ "") :
    ∃ st', uploadObsidianFile noFail n e m c (mkPath qs) st = (.ok (), st') ∧
      st'.drivefolderIds = st.drivefolderIds ∧
      st'.remote.folders = st.remote.folders ∧
      st'.obsidianFolderId = st.obsidianFolderId ∧
      st'.lastSyncTimestamp = st.lastSyncTimestamp ∧
      st'.googleDriveRefreshToken = st.googleDriveRefreshToken := by
  have hall : ∀ x ∈ qs ++ [n], validSeg x = true := by
    intro x hx
    rcases List.mem_append.mp hx with h | h
    · exact hqs x h
    · rw [List.mem_singleton.mp h]; exact hn
  obtain ⟨i, hloop⟩ := ensureDriveFolderLoop_cached_noop noFail (splitParts (mkPath qs)) ""
    (match st.obsidianFolderId with | some j => j | none => "null") st
    (by rw [splitParts_mkPath qs hqs]; exact hpc)
  have hens : ensureDriveFolder noFail (dirname (pathJoin (mkPath qs) n)) st = (.ok i, st) := by
    rw [← mkPath_append_one, dirname_mkPath qs n hall]
    exact hloop
  unfold uploadObsidianFile
  dsimp only
  split
  · exact ⟨st, rfl, rfl, rfl, rfl, rfl, rfl⟩
  · unfold uploadFile
    dsimp only
    rw [hens]
    dsimp only
    by_cases hcond : jsGet st.fileIds (pathJoin (mkPath qs) n) ≠ ""
    · rw [if_pos hcond, issueUpdateFile_noFail]
      dsimp only
      rw [if_pos hcond]
      exact ⟨_, rfl, rfl, rfl, rfl, rfl, rfl⟩
    · rw [if_neg hcond, issueCreateFile_noFail]
      dsimp only
      rw [if_pos (mintId_ne st.remote)]
      exact ⟨_, rfl, rfl, rfl, rfl, rfl, rfl⟩

/-! ### Replay: a second resolution over an extended remote finds
everything the first run resolved or created -/

theorem remoteListF_append (fs gs : List DFolder) (p : Option String) (n : String) :
    remoteListF (fs ++ gs) p n = remoteListF fs p n ++ remoteListF gs p n := by
  simp [remoteListF, List.filter_append]

theorem onlyListQ_cons_listQ (p : Option String) (n : String) (tr : List RCall)
    (h : onlyListQ tr = true) : onlyListQ (RCall.listQ p n :: tr) = true := by
  simpa [onlyListQ] using h

theorem replay_loop (segs : List String) (cp pid : String) (st1 st2 : St) (i : String)
    (st1f : St) (ex : List DFolder)
    (h1 : ensureDriveFolderLoop noFail segs cp pid st1 = (.ok i, st1f))
    (hc : st2.drivefolderIds = st1.drivefolderIds)
    (hrem : st2.remote.folders = st1f.remote.folders ++ ex) :
    ∃ tex, onlyListQ tex = true ∧
      ensureDriveFolderLoop noFail segs cp pid st2 =
        (.ok i,
          { st2 with
              drivefolderIds := st1f.drivefolderIds,
              trace := st2.trace ++ tex }) := by
  induction segs generalizing cp pid st1 st2 with
  | nil =>
    rw [ensureDriveFolderLoop] at h1
    injection h1 with h1a h1b
    injection h1a with h1a
    subst h1a
    subst h1b
    refine ⟨[], rfl, ?_⟩
    rw [ensureDriveFolderLoop, List.append_nil, ← hc]
  | cons part rest ih =>
    rw [ensureDriveFolderLoop] at h1
    dsimp only at h1
    rw [ensureDriveFolderLoop]
    dsimp only
    have hcc : jsGet st2.drivefolderIds (pathJoin cp part) =
        jsGet st1.drivefolderIds (pathJoin cp part) := by rw [hc]
    by_cases hch : jsGet st1.drivefolderIds (pathJoin cp part) ≠ ""
    · rw [if_pos hch] at h1
      rw [if_pos (show jsGet st2.drivefolderIds (pathJoin cp part) ≠ "" by
        rw [hcc]; exact hch), hcc]
      exact ih _ _ _ _ h1 hc hrem
    · rw [if_neg hch] at h1
      rw [if_neg (show ¬jsGet st2.drivefolderIds (pathJoin cp part) ≠ "" by
        rw [hcc]; exact hch)]
      rw [issueList_noFail] at h1
      dsimp only at h1
      rw [issueList_noFail]
      dsimp only
      rcases hids : remoteList st1.remote (some pid) part with _ | ⟨i0, t⟩
      · rw [hids] at h1
        dsimp only at h1
        rw [issueCreateFolder_noFail] at h1
        dsimp only at h1
        obtain ⟨app, happ⟩ :=
          (ev_ensureDriveFolderLoop noFail rest (pathJoin cp part) (mintId st1.remote)
            { st1 with
                drivefolderIds := jsSet st1.drivefolderIds (pathJoin cp part)
                  (mintId st1.remote),
                remote := Remote.mk
                  (st1.remote.folders ++ [⟨mintId st1.remote, pid, part⟩])
                  (st1.remote.nextId + 1),
                trace := st1.trace ++ [RCall.listQ (some pid) part] ++
                  [RCall.createFolderC pid part] }).folders
      
        rw [h1] at happ
        have hids1 : remoteListF st1.remote.folders (some pid) part = [] := hids
        have hids2 : remoteList st2.remote (some pid) part =
            mintId st1.remote :: remoteListF (app ++ ex) (some pid) part := by
          rw [remoteList, hrem, happ]
          dsimp only
          rw [List.append_assoc, List.append_assoc, remoteListF_append, hids1,
            remoteListF_append]
          simp [remoteListF, folderMatches]
        rw [hids2]
        dsimp only
        obtain ⟨tex2, honly2, heq2⟩ := ih (pathJoin cp part) (mintId st1.remote)
          { st1 with
              drivefolderIds := jsSet st1.drivefolderIds (pathJoin cp part)
                (mintId st1.remote),
              remote := Remote.mk (st1.remote.folders ++ [⟨mintId st1.remote, pid, part⟩])
                (st1.remote.nextId + 1),
              trace := st1.trace ++ [RCall.listQ (some pid) part] ++
                [RCall.createFolderC pid part] }
          { st2 with
              drivefolderIds := jsSet st2.drivefolderIds (pathJoin cp part)
                (mintId st1.remote),
              trace := st2.trace ++ [RCall.listQ (some pid) part] }
          h1 (by dsimp only; rw [hc]) (by dsimp only; rw [hrem])
        refine ⟨RCall.listQ (some pid) part :: tex2, onlyListQ_cons_listQ _ _ _ honly2, ?_⟩
        rw [heq2]
        dsimp only
        rw [List.append_assoc]
        rfl
      · rw [hids] at h1
        dsimp only at h1
        obtain ⟨app, happ⟩ :=
          (ev_ensureDriveFolderLoop noFail rest (pathJoin cp part) i0
            { st1 with
                drivefolderIds := jsSet st1.drivefolderIds (pathJoin cp part) i0,
                trace := st1.trace ++ [RCall.listQ (some pid) part] }).folders
        rw [h1] at happ
        dsimp only at happ
        have hids2 : remoteList st2.remote (some pid) part =
            i0 :: (t ++ remoteListF (app ++ ex) (some pid) part) := by
          rw [remoteList, hrem, happ, List.append_assoc, remoteListF_append]
          rw [show remoteListF st1.remote.folders (some pid) part = i0 :: t from hids]
          rfl
        rw [hids2]
        dsimp only
        obtain ⟨tex2, honly2, heq2⟩ := ih (pathJoin cp part) i0
          { st1 with
              drivefolderIds := jsSet st1.drivefolderIds (pathJoin cp part) i0,
              trace := st1.trace ++ [RCall.listQ (some pid) part] }
          { st2 with
              drivefolderIds := jsSet st2.drivefolderIds (pathJoin cp part) i0,
              trace := st2.trace ++ [RCall.listQ (some pid) part] }
          h1 (by dsimp only; rw [hc]) (by dsimp only; rw [hrem])
        refine ⟨RCall.listQ (some pid) part :: tex2, onlyListQ_cons_listQ _ _ _ honly2, ?_⟩
        rw [heq2]
        dsimp only
        rw [List.append_assoc]
        rfl

theorem replay_ensure (folderPath : String) (st1 st2 : St) (i : String) (st1f : St)
    (ex : List DFolder)
    (h1 : ensureDriveFolder noFail folderPath st1 = (.ok i, st1f))
    (hc : st2.drivefolderIds = st1.drivefolderIds)
    (hobs : st2.obsidianFolderId = st1.obsidianFolderId)
    (hrem : st2.remote.folders = st1f.remote.folders ++ ex) :
    ∃ tex, onlyListQ tex = true ∧
      ensureDriveFolder noFail folderPath st2 =
        (.ok i,
          { st2 with
              drivefolderIds := st1f.drivefolderIds,
              trace := st2.trace ++ tex }) := by
  unfold ensureDriveFolder at h1 ⊢
  rw [← hobs] at h1
  exact replay_loop _ _ _ _ _ _ _ _ h1 hc hrem

theorem replay_root (st1 st2 : St) (st1f : St) (ex : List DFolder)
    (h1 : ensureObsidianFolder noFail st1 = (.ok (), st1f))
    (hc : st2.drivefolderIds = st1.drivefolderIds)
    (hrem : st2.remote.folders = st1f.remote.folders ++ ex) :
    ∃ tex, onlyListQ tex = true ∧
      ensureObsidianFolder noFail st2 =
        (.ok (),
          { st2 with
              obsidianFolderId := st1f.obsidianFolderId,
              drivefolderIds := st1f.drivefolderIds,
              trace := st2.trace ++ tex }) := by
  unfold ensureObsidianFolder at h1 ⊢
  rw [issueList_noFail] at h1 ⊢
  dsimp only at h1 ⊢
  rcases hids : remoteList st1.remote none "Obsidian Vault" with _ | ⟨i0, t⟩
  · rw [hids] at h1
    dsimp only at h1
    rw [issueCreateFolder_noFail] at h1
    dsimp only at h1
    injection h1 with h1a h1b
    subst h1b
    have hids2 : remoteList st2.remote none "Obsidian Vault" =
        mintId st1.remote :: remoteListF ex none "Obsidian Vault" := by
      rw [remoteList, hrem]
      dsimp only
      rw [List.append_assoc, remoteListF_append, remoteListF_append,
        show remoteListF st1.remote.folders none "Obsidian Vault" = [] from hids]
      simp [remoteListF, folderMatches]
    rw [hids2]
    dsimp only
    refine ⟨[RCall.listQ none "Obsidian Vault"], rfl, ?_⟩
    rw [← hc]
  · rw [hids] at h1
    dsimp only at h1
    injection h1 with h1a h1b
    subst h1b
    have hids2 : remoteList st2.remote none "Obsidian Vault" =
        i0 :: (t ++ remoteListF ex none "Obsidian Vault") := by
      rw [remoteList, hrem]
      dsimp only
      rw [remoteListF_append,
        show remoteListF st1.remote.folders none "Obsidian Vault" = i0 :: t from hids]
      rfl
    rw [hids2]
    dsimp only
    refine ⟨[RCall.listQ none "Obsidian Vault"], rfl, ?_⟩
    rw [← hc]

theorem onlyListQ_append (a b : List RCall) (ha : onlyListQ a = true)
    (hb : onlyListQ b = true) : onlyListQ (a ++ b) = true := by
  rw [onlyListQ, List.all_append]
  exact Bool.and_eq_true_iff.mpr ⟨ha, hb⟩

theorem goodIds_ensureDriveFolder (folderPath : String) (st : St)
    (hg : goodIds st.remote = true) :
    goodIds (ensureDriveFolder noFail folderPath st).2.remote = true := by
  unfold ensureDriveFolder
  exact goodIds_ensureDriveFolderLoop _ _ _ _ hg

theorem ensureDriveFolder_postCached (folderPath : String) (st : St)
    (hg : goodIds st.remote = true) :
    ∀ q ∈ cumPaths "" (splitParts folderPath),
      jsGet (ensureDriveFolder noFail folderPath st).2.drivefolderIds q ≠ "" := by
  unfold ensureDriveFolder
  exact ensureDriveFolderLoop_postCached _ _ _ _ hg

/-- Replay of the traversal: a pass-1 traversal that completed keeps
`goodIds`; and a later traversal of the same vault from a state agreeing
with pass-1's folder cache and root id, whose remote extends pass-1's
final remote, and whose `lastSyncTimestamp` is at or above every file's
modification time, skips every file, issues only list queries, and ends
with pass-1's folder cache. -/
theorem replay_traversal (l : List VNode) (cp : String) (st : St) :
    ∀ qs : List String, cp = mkPath qs →
    wfNodes l = true →
    (∀ x ∈ qs, validSeg x = true) →
    (∀ q ∈ cumPaths "" qs, jsGet st.drivefolderIds q ≠ "") →
    goodIds st.remote = true →
    (uploadFolderContents noFail l cp st).1 = .ok () →
    goodIds (uploadFolderContents noFail l cp st).2.remote = true ∧
    ∀ st2 ex t1,
      st2.drivefolderIds = st.drivefolderIds →
      st2.obsidianFolderId = st.obsidianFolderId →
      st2.remote.folders = (uploadFolderContents noFail l cp st).2.remote.folders ++ ex →
      st2.lastSyncTimestamp = some t1 →
      mtimesLe t1 l = true →
      ∃ tex, onlyListQ tex = true ∧
        uploadFolderContents noFail l cp st2 =
          (.ok (),
            { st2 with
                drivefolderIds := (uploadFolderContents noFail l cp st).2.drivefolderIds,
                trace := st2.trace ++ tex }) := by
  induction l, cp, st using uploadFolderContents.induct noFail
    (motive_2 := fun it cp st =>
      ∀ qs : List String, cp = mkPath qs →
      wfNode it = true →
      (∀ x ∈ qs, validSeg x = true) →
      (∀ q ∈ cumPaths "" qs, jsGet st.drivefolderIds q ≠ "") →
      goodIds st.remote = true →
      (uploadFolderItem noFail it cp st).1 = .ok () →
      goodIds (uploadFolderItem noFail it cp st).2.remote = true ∧
      ∀ st2 ex t1,
        st2.drivefolderIds = st.drivefolderIds →
        st2.obsidianFolderId = st.obsidianFolderId →
        st2.remote.folders = (uploadFolderItem noFail it cp st).2.remote.folders ++ ex →
        st2.lastSyncTimestamp = some t1 →
        mtimeLe t1 it = true →
        ∃ tex, onlyListQ tex = true ∧
          uploadFolderItem noFail it cp st2 =
            (.ok (),
              { st2 with
                  drivefolderIds := (uploadFolderItem noFail it cp st).2.drivefolderIds,
                  trace := st2.trace ++ tex })) with
  | case1 n e m c cp st =>
    rename_i qs hcp hwf hqs hpc hgood hok
    subst hcp
    have hn : validSeg n = true := by simpa [wfNode] using hwf
    obtain ⟨st', hrun, hcache', hfolders', hobs', hls', htok'⟩ :=
      uploadObsidianFile_inplace n e m c qs st hqs hn hpc
    have hitem : uploadFolderItem noFail (VNode.vfile n e m c) (mkPath qs) st =
        (.ok (), st') := by
      rw [uploadFolderItem]
      exact hrun
    constructor
    · rw [hitem]
      show goodIds st'.remote = true
      rw [goodIds] at hgood ⊢
      rw [hfolders']
      exact hgood
    · intro st2 ex t1 hc hobs hrem hls hmt
      refine ⟨[], rfl, ?_⟩
      have hskip : skipCheck st2.lastSyncTimestamp m = true := by
        rw [hls]
        simpa [skipCheck, mtimeLe] using hmt
      rw [hitem]
      dsimp only
      rw [uploadFolderItem]
      unfold uploadObsidianFile
      dsimp only
      rw [if_pos hskip, List.append_nil, hcache', ← hc]
  | case2 n ch cp st np e1 st_1 hE =>
    rename_i qs hcp hwf hqs hpc hgood hok
    exfalso
    rw [uploadFolderItem, hE] at hok
    simp at hok
  | case3 n ch cp st np i st_1 hE ihch =>
    rename_i qs hcp hwf hqs hpc hgood hok
    subst hcp
    have hn : validSeg n = true := by
      simp only [wfNode, Bool.and_eq_true] at hwf
      exact hwf.1
    have hwfch : wfNodes ch = true := by
      simp only [wfNode, Bool.and_eq_true] at hwf
      exact hwf.2
    have hqs' : ∀ x ∈ qs ++ [n], validSeg x = true := by
      intro x hx
      rcases List.mem_append.mp hx with h | h
      · exact hqs x h
      · rw [List.mem_singleton.mp h]; exact hn
    have hnp : np = mkPath (qs ++ [n]) := (mkPath_append_one qs n).symm
    have hitem : uploadFolderItem noFail (VNode.vfolder n ch) (mkPath qs) st =
        uploadFolderContents noFail ch np st_1 := by
      rw [uploadFolderItem, hE]
    have hgood1 : goodIds st_1.remote = true := by
      have h := goodIds_ensureDriveFolder np st hgood
      rw [hE] at h
      exact h
    have hpc1 : ∀ q ∈ cumPaths "" (qs ++ [n]), jsGet st_1.drivefolderIds q ≠ "" := by
      have h := ensureDriveFolder_postCached np st hgood
      rw [hE] at h
      rw [hnp, splitParts_mkPath (qs ++ [n]) hqs'] at h
      exact h
    have hok1 : (uploadFolderContents noFail ch np st_1).1 = .ok () := by
      rw [← hitem]
      exact hok
    obtain ⟨hgoodch, hreplaych⟩ := ihch (qs ++ [n]) hnp hwfch hqs' hpc1 hgood1 hok1
    constructor
    · rw [hitem]
      exact hgoodch
    · intro st2 ex t1 hc hobs hrem hls hmt
      obtain ⟨appC, happC⟩ := (evu_uploadFolderContents noFail ch np st_1).folders
      have hobs1 : st_1.obsidianFolderId = st.obsidianFolderId := by
        have h := (ev_ensureDriveFolder noFail np st).obsId
        rw [hE] at h
        exact h
      have hrem1 : st2.remote.folders = st_1.remote.folders ++ (appC ++ ex) := by
        rw [hrem, hitem, happC, List.append_assoc]
      obtain ⟨texE, honlyE, heqE⟩ :=
        replay_ensure np st st2 i st_1 (appC ++ ex) hE hc hobs hrem1
      obtain ⟨texC, honlyC, heqC⟩ := hreplaych
        { st2 with
            drivefolderIds := st_1.drivefolderIds,
            trace := st2.trace ++ texE } ex t1
        (by dsimp only)
        (by dsimp only; rw [hobs, hobs1])
        (by dsimp only; rw [hrem, hitem])
        (by dsimp only; exact hls)
        (by simpa [mtimeLe] using hmt)
      refine ⟨texE ++ texC, onlyListQ_append _ _ honlyE honlyC, ?_⟩
      rw [hitem]
      rw [uploadFolderItem, heqE]
      dsimp only
      rw [heqC]
      dsimp only
      rw [List.append_assoc]
  | case4 =>
    rename_i cp st
    intro qs hcp hwf hqs hpc hgood hok
    refine ⟨hgood, ?_⟩
    intro st2 ex t1 hc hobs hrem hls hmt
    refine ⟨[], rfl, ?_⟩
    show (Except.ok (), st2) =
      ((Except.ok () : Except Unit Unit),
        { st2 with drivefolderIds := st.drivefolderIds, trace := st2.trace ++ [] })
    rw [List.append_nil, ← hc]
  | case5 =>
    rename_i item rest cp st er st_1 hI ih2
    intro qs hcp hwf hqs hpc hgood hok
    exfalso
    rw [uploadFolderContents, hI] at hok
    simp at hok
  | case6 =>
    rename_i item rest cp st a st_1 hI ih2 ih1
    intro qs hcp hwf hqs hpc hgood hok
    have hwfI : wfNode item = true := by
      simp only [wfNodes, Bool.and_eq_true] at hwf
      exact hwf.1
    have hwfR : wfNodes rest = true := by
      simp only [wfNodes, Bool.and_eq_true] at hwf
      exact hwf.2
    have hokI : (uploadFolderItem noFail item cp st).1 = .ok () := by
      rw [hI]
    obtain ⟨hgoodI, hreplayI⟩ := ih2 qs hcp hwfI hqs hpc hgood hokI
    have hEvU := evu_uploadFolderItem noFail item cp st
    rw [hI] at hEvU hgoodI
    have hpc1 : ∀ q ∈ cumPaths "" qs, jsGet st_1.drivefolderIds q ≠ "" := by
      intro q hq
      rw [hEvU.cacheMono q (hpc q hq)]
      exact hpc q hq
    have hwhole : uploadFolderContents noFail (item :: rest) cp st =
        uploadFolderContents noFail rest cp st_1 := by
      rw [uploadFolderContents, hI]
    have hokR : (uploadFolderContents noFail rest cp st_1).1 = .ok () := by
      rw [← hwhole]
      exact hok
    obtain ⟨hgoodR, hreplayR⟩ := ih1 qs hcp hwfR hqs hpc1 hgoodI hokR
    constructor
    · rw [hwhole]
      exact hgoodR
    · intro st2 ex t1 hc hobs hrem hls hmt
      have hmtI : mtimeLe t1 item = true := by
        simp only [mtimesLe, Bool.and_eq_true] at hmt
        exact hmt.1
      have hmtR : mtimesLe t1 rest = true := by
        simp only [mtimesLe, Bool.and_eq_true] at hmt
        exact hmt.2
      obtain ⟨appR, happR⟩ := (evu_uploadFolderContents noFail rest cp st_1).folders
      have hremI : st2.remote.folders =
          (uploadFolderItem noFail item cp st).2.remote.folders ++ (appR ++ ex) := by
        rw [hI]
        show st2.remote.folders = st_1.remote.folders ++ (appR ++ ex)
        rw [hrem, hwhole, happR, List.append_assoc]
      obtain ⟨texI, honlyI, heqI⟩ := hreplayI st2 (appR ++ ex) t1 hc hobs hremI hls hmtI
      rw [hI] at heqI
      obtain ⟨texR, honlyR, heqR⟩ := hreplayR
        { st2 with
            drivefolderIds := st_1.drivefolderIds,
            trace := st2.trace ++ texI } ex t1
        (by dsimp only)
        (by dsimp only; rw [hobs, hEvU.obsId])
        (by dsimp only; rw [hrem, hwhole])
        (by dsimp only; exact hls)
        hmtR
      refine ⟨texI ++ texR, onlyListQ_append _ _ honlyI honlyR, ?_⟩
      rw [hwhole]
      rw [uploadFolderContents, heqI]
      dsimp only
      rw [heqR]
      dsimp only
      rw [List.append_assoc]

/-! ### A run without remote failures always completes -/

theorem ensureDriveFolderLoop_noFail_ok (segs : List String) (cp pid : String) (st : St) :
    ∃ i st', ensureDriveFolderLoop noFail segs cp pid st = (.ok i, st') := by
  induction segs generalizing cp pid st with
  | nil => exact ⟨pid, st, rfl⟩
  | cons part rest ih =>
    rw [ensureDriveFolderLoop]
    dsimp only
    split
    · exact ih _ _ _
    · rw [issueList_noFail]
      dsimp only
      rcases remoteList st.remote (some pid) part with _ | ⟨i, t⟩
      · rw [issueCreateFolder_noFail]
        dsimp only
        exact ih _ _ _
      · exact ih _ _ _

theorem ensureDriveFolder_noFail_ok (folderPath : String) (st : St) :
    ∃ i st', ensureDriveFolder noFail folderPath st = (.ok i, st') := by
  unfold ensureDriveFolder
  exact ensureDriveFolderLoop_noFail_ok _ _ _ _

theorem ensureObsidianFolder_noFail_ok (st : St) :
    ∃ st', ensureObsidianFolder noFail st = (.ok (), st') := by
  unfold ensureObsidianFolder
  rw [issueList_noFail]
  dsimp only
  rcases remoteList st.remote none "Obsidian Vault" with _ | ⟨i, t⟩
  · rw [issueCreateFolder_noFail]
    dsimp only
    exact ⟨_, rfl⟩
  · exact ⟨_, rfl⟩

theorem goodIds_ensureObsidianFolder (st : St) (hg : goodIds st.remote = true) :
    goodIds (ensureObsidianFolder noFail st).2.remote = true := by
  unfold ensureObsidianFolder
  rw [issueList_noFail]
  dsimp only
  rcases remoteList st.remote none "Obsidian Vault" with _ | ⟨i, t⟩
  · rw [issueCreateFolder_noFail]
    dsimp only
    exact goodIds_mint_append st.remote "" "Obsidian Vault" hg
  · exact hg

theorem uploadObsidianFile_noFail_ok (n e : String) (m : Nat) (c cp : String) (st : St) :
    ∃ st', uploadObsidianFile noFail n e m c cp st = (.ok (), st') := by
  unfold uploadObsidianFile
  dsimp only
  split
  · exact ⟨st, rfl⟩
  · obtain ⟨i, st1, hE⟩ := ensureDriveFolder_noFail_ok (dirname (pathJoin cp n)) st
    unfold uploadFile
    dsimp only
    rw [hE]
    dsimp only
    by_cases hcond : jsGet st1.fileIds (pathJoin cp n) ≠ ""
    · rw [if_pos hcond, issueUpdateFile_noFail]
      dsimp only
      split
      · exact ⟨_, rfl⟩
      · exact ⟨_, rfl⟩
    · rw [if_neg hcond, issueCreateFile_noFail]
      dsimp only
      split
      · exact ⟨_, rfl⟩
      · exact ⟨_, rfl⟩

theorem uploadFolderContents_noFail_ok (l : List VNode) (cp : String) (st : St) :
    ∃ st', uploadFolderContents noFail l cp st = (.ok (), st') := by
  induction l, cp, st using uploadFolderContents.induct noFail
    (motive_2 := fun it cp st => ∃ st', uploadFolderItem noFail it cp st = (.ok (), st')) with
  | case1 n e m c cp st =>
    rw [uploadFolderItem]
    exact uploadObsidianFile_noFail_ok n e m c cp st
  | case2 n ch cp st np e1 st_1 hE =>
    exfalso
    obtain ⟨i, st', hok⟩ := ensureDriveFolder_noFail_ok np st
    rw [hok] at hE
    simp at hE
  | case3 n ch cp st np i st_1 hE ihch =>
    rw [uploadFolderItem, hE]
    exact ihch
  | case4 =>
    rename_i cp st
    exact ⟨st, rfl⟩
  | case5 =>
    rename_i item rest cp st er st_1 hI ih2
    exfalso
    obtain ⟨st', hok⟩ := ih2
    rw [hok] at hI
    simp at hI
  | case6 =>
    rename_i item rest cp st a st_1 hI ih2 ih1
    rw [uploadFolderContents, hI]
    exact ih1

theorem onlyListQ_counts (tr : List RCall) (h : onlyListQ tr = true) :
    countCreateFolderC tr = 0 ∧ countCreateFileC tr = 0 ∧ countUpdateFileC tr = 0 := by
  rw [onlyListQ, List.all_eq_true] at h
  refine ⟨?_, ?_, ?_⟩ <;>
    [rw [countCreateFolderC]; rw [countCreateFileC]; rw [countUpdateFileC]] <;>
    [skip; skip; skip] <;>
    (rw [List.countP_eq_zero]
     intro c hc
     have := h c hc
     cases c <;> simp_all)

/-- The successful path of `syncWithGoogleDrive`: with a token, no auth
failure, a completing root-folder step and a completing traversal, the
pass returns `true` and stamps `lastSyncTimestamp`. -/
theorem sync_noFail_eq (vault : List VNode) (now : Nat) (st stB stC : St)
    (htok : ¬ st.googleDriveRefreshToken = "")
    (hR : ensureObsidianFolder noFail { st with drivefolderIds := [], trace := [] } =
      (.ok (), stB))
    (hT : uploadFolderContents noFail vault "/" stB = (.ok (), stC)) :
    syncWithGoogleDrive noFail false vault now st =
      (true, { stC with lastSyncTimestamp := some now }) := by
  unfold syncWithGoogleDrive
  rw [if_neg htok, if_neg Bool.false_ne_true]
  dsimp only
  rw [hR]
  dsimp only
  rw [show uploadVaultContents noFail vault stB = (.ok (), stC) from hT]

/-- C8: running a full sync pass twice with no local modifications in
between (every file modification time at or below the first pass time)
succeeds on both passes, and the second pass issues zero create-folder
calls (every folder resolution finds the folder the first pass created),
zero create-file calls and zero update-file calls (every file is skipped
by the change detector). -/
theorem sync_second_pass_idempotent
    (vault : List VNode) (data : JMap) (tok : String) (r : Remote)
    (ls0 : Option Nat) (t1 t2 : Nat)
    (htok : tok ≠ "") (hwf : wfNodes vault = true)
    (hmt : mtimesLe t1 vault = true) (hgood : goodIds r = true) :
    (syncWithGoogleDrive noFail false vault t1 (pluginLoad data ls0 tok r)).1 = true ∧
    (syncWithGoogleDrive noFail false vault t2
      (syncWithGoogleDrive noFail false vault t1 (pluginLoad data ls0 tok r)).2).1 = true ∧
    countCreateFolderC (syncWithGoogleDrive noFail false vault t2
      (syncWithGoogleDrive noFail false vault t1 (pluginLoad data ls0 tok r)).2).2.trace = 0 ∧
    countCreateFileC (syncWithGoogleDrive noFail false vault t2
      (syncWithGoogleDrive noFail false vault t1 (pluginLoad data ls0 tok r)).2).2.trace = 0 ∧
    countUpdateFileC (syncWithGoogleDrive noFail false vault t2
      (syncWithGoogleDrive noFail false vault t1 (pluginLoad data ls0 tok r)).2).2.trace = 0 := by
  obtain ⟨stB, hR⟩ := ensureObsidianFolder_noFail_ok
    { pluginLoad data ls0 tok r with drivefolderIds := [], trace := [] }
  obtain ⟨stC, hT⟩ := uploadFolderContents_noFail_ok vault "/" stB
  have hpass1 : syncWithGoogleDrive noFail false vault t1 (pluginLoad data ls0 tok r) =
      (true, { stC with lastSyncTimestamp := some t1 }) :=
    sync_noFail_eq vault t1 _ stB stC htok hR hT
  have hgB : goodIds stB.remote = true := by
    have h := goodIds_ensureObsidianFolder
      { pluginLoad data ls0 tok r with drivefolderIds := [], trace := [] } hgood
    rw [hR] at h
    exact h
  have hevu : EvU stB stC := by
    have h := evu_uploadFolderContents noFail vault "/" stB
    rw [hT] at h
    exact h
  have htokB : stB.googleDriveRefreshToken = tok := by
    have h := ensureObsidianFolder_frame noFail
      { pluginLoad data ls0 tok r with drivefolderIds := [], trace := [] }
    rw [hR] at h
    exact h.2.1
  have htokC : stC.googleDriveRefreshToken = tok := hevu.token.trans htokB
  have hokT : (uploadFolderContents noFail vault "/" stB).1 = .ok () := by rw [hT]
  obtain ⟨hgC, hreplay⟩ := replay_traversal vault "/" stB [] rfl hwf
    (by intro x hx; simp at hx)
    (by intro q hq; simp [cumPaths] at hq)
    hgB hokT
  obtain ⟨app, happ⟩ := hevu.folders
  set stD : St := { stC with lastSyncTimestamp := some t1 } with hD
  set stA2 : St := { stD with drivefolderIds := [], trace := [] } with hA2
  obtain ⟨texR, honlyR, heqR⟩ := replay_root
    { pluginLoad data ls0 tok r with drivefolderIds := [], trace := [] }
    stA2 stB app hR rfl happ
  obtain ⟨texT, honlyT, heqT⟩ := hreplay
    { stA2 with
        obsidianFolderId := stB.obsidianFolderId
        drivefolderIds := stB.drivefolderIds
        trace := stA2.trace ++ texR }
    [] t1 rfl rfl (by rw [hT]; exact (List.append_nil _).symm) rfl hmt
  have hpass2 : syncWithGoogleDrive noFail false vault t2 stD =
      (true,
        { { stA2 with
              obsidianFolderId := stB.obsidianFolderId
              drivefolderIds := stB.drivefolderIds
              trace := stA2.trace ++ texR } with
            drivefolderIds := (uploadFolderContents noFail vault "/" stB).2.drivefolderIds
            trace :=
              ({ stA2 with
                  obsidianFolderId := stB.obsidianFolderId
                  drivefolderIds := stB.drivefolderIds
                  trace := stA2.trace ++ texR } : St).trace ++ texT
            lastSyncTimestamp := some t2 }) :=
    sync_noFail_eq vault t2 stD _ _
      (by intro h; apply htok; rw [← htokC]; exact h) heqR heqT
  have hcounts := onlyListQ_counts (texR ++ texT) (onlyListQ_append _ _ honlyR honlyT)
  refine ⟨?_, ?_, ?_, ?_, ?_⟩
  · rw [hpass1]
  · rw [hpass1]
    show (syncWithGoogleDrive noFail false vault t2 stD).1 = true
    rw [hpass2]
  · rw [hpass1]
    show countCreateFolderC (syncWithGoogleDrive noFail false vault t2 stD).2.trace = 0
    rw [hpass2]
    show countCreateFolderC (texR ++ texT) = 0
    exact hcounts.1
  · rw [hpass1]
    show countCreateFileC (syncWithGoogleDrive noFail false vault t2 stD).2.trace = 0
    rw [hpass2]
    show countCreateFileC (texR ++ texT) = 0
    exact hcounts.2.1
  · rw [hpass1]
    show countUpdateFileC (syncWithGoogleDrive noFail false vault t2 stD).2.trace = 0
    rw [hpass2]
    show countUpdateFileC (texR ++ texT) = 0
    exact hcounts.2.2

/-- Witness: a vault with one folder and one file, synced twice from a
fresh install, succeeds on both passes and issues no create-folder,
create-file or update-file call on the second pass. -/
theorem sync_second_pass_idempotent_witness :
    ("tok" : String) ≠ "" ∧
    wfNodes [VNode.vfolder "notes" [VNode.vfile "a" "md" 50 "hello"]] = true ∧
    mtimesLe 100 [VNode.vfolder "notes" [VNode.vfile "a" "md" 50 "hello"]] = true ∧
    goodIds ⟨[], 0⟩ = true ∧
    ((syncWithGoogleDrive noFail false [VNode.vfolder "notes" [VNode.vfile "a" "md" 50 "hello"]]
        100 (pluginLoad [] none "tok" ⟨[], 0⟩)).1 = true ∧
      (syncWithGoogleDrive noFail false [VNode.vfolder "notes" [VNode.vfile "a" "md" 50 "hello"]]
        200 (syncWithGoogleDrive noFail false
          [VNode.vfolder "notes" [VNode.vfile "a" "md" 50 "hello"]]
          100 (pluginLoad [] none "tok" ⟨[], 0⟩)).2).1 = true ∧
      countCreateFolderC (syncWithGoogleDrive noFail false
        [VNode.vfolder "notes" [VNode.vfile "a" "md" 50 "hello"]]
        200 (syncWithGoogleDrive noFail false
          [VNode.vfolder "notes" [VNode.vfile "a" "md" 50 "hello"]]
          100 (pluginLoad [] none "tok" ⟨[], 0⟩)).2).2.trace = 0 ∧
      countCreateFileC (syncWithGoogleDrive noFail false
        [VNode.vfolder "notes" [VNode.vfile "a" "md" 50 "hello"]]
        200 (syncWithGoogleDrive noFail false
          [VNode.vfolder "notes" [VNode.vfile "a" "md" 50 "hello"]]
          100 (pluginLoad [] none "tok" ⟨[], 0⟩)).2).2.trace = 0 ∧
      countUpdateFileC (syncWithGoogleDrive noFail false
        [VNode.vfolder "notes" [VNode.vfile "a" "md" 50 "hello"]]
        200 (syncWithGoogleDrive noFail false
          [VNode.vfolder "notes" [VNode.vfile "a" "md" 50 "hello"]]
          100 (pluginLoad [] none "tok" ⟨[], 0⟩)).2).2.trace = 0) :=
  ⟨by decide, by decide, by decide, by decide,
    sync_second_pass_idempotent [VNode.vfolder "notes" [VNode.vfile "a" "md" 50 "hello"]]
      [] "tok" ⟨[], 0⟩ none 100 200 (by decide) (by decide) (by decide) (by decide)⟩

end GDriveSync
